/-
Verification of the RLVR-World video-tokenizer sources against their
natural-language specification.

Shallow embedding of:
  src/vid_wm/ivideogpt/train_tokenizer.py
    (AverageMeter, gradient_penalty, save_checkpoint naming,
     resume-from-latest-checkpoint selection, get_recon_loss,
     the generator-step loss composition)
  src/vid_wm/verl/ivideogpt/ctx_tokenizer/compressive_vq_model.py
    (CompressiveVQModelFSQ.__init__/decode at value level,
     tokenize/detokenize at shape level)

Numbers are embedded as ℚ or ℝ (the Python code computes with floats; we
reason about exact arithmetic, which is the standard idealisation).
Components of the repository that are not under src/ (the FSQ quantizer
module, get_fsq_levels, the ctx_tokenizer Encoder/Decoder and the
conditional encoder/decoder) are modelled from the spec; each such
definition carries a doc comment saying so.
-/
import Mathlib

namespace VidWM

/-! ## Generic list/tensor helpers (semantics of the torch operations used) -/

/-- A torch tensor: a shape and the row-major flat data. -/
structure Tensor (α : Type) where
  shape : List ℕ
  data : List α
deriving Repr

/-- Number of elements of a tensor of shape `s` (torch `numel`). -/
def Tensor.numel {α : Type} (t : Tensor α) : ℕ := t.shape.prod

/-- Mean of a list of reals (torch `.mean()` on a flattened tensor). -/
noncomputable def listMean (xs : List ℝ) : ℝ := xs.sum / (xs.length : ℝ)

/-- Euclidean norm of a list of reals (torch `.norm(2, dim=1)` applied to one row). -/
noncomputable def l2norm (xs : List ℝ) : ℝ := Real.sqrt ((xs.map (fun x => x ^ 2)).sum)

/-! ## AverageMeter (train_tokenizer.py lines 49-65) -/

/-- State of `AverageMeter`: current value, running average, running sum and count. -/
structure AverageMeter where
  val : ℚ
  avg : ℚ
  sum : ℚ
  count : ℚ
deriving DecidableEq, Repr

/-- `AverageMeter.reset`: zero all fields (also the state after `__init__`). -/
def AverageMeter.reset (_m : AverageMeter) : AverageMeter :=
  { val := 0, avg := 0, sum := 0, count := 0 }

/-- `AverageMeter.update(val, n=1)`.  The Python body runs
`self.avg = self.sum / self.count` last; when the updated count is zero this
raises ZeroDivisionError, which we model as `none`. -/
def AverageMeter.update (m : AverageMeter) (val : ℚ) (n : ℕ := 1) : Option AverageMeter :=
  let sum := m.sum + val * (n : ℚ)
  let count := m.count + (n : ℚ)
  if count = 0 then none
  else some { val := val, sum := sum, count := count, avg := sum / count }

/-- Run a sequence of `update` calls from a given state; an exception aborts the run. -/
def AverageMeter.runUpdates (m : AverageMeter) : List (ℚ × ℕ) → Option AverageMeter
  | [] => some m
  | (v, n) :: rest => (m.update v n).bind (fun m2 => m2.runUpdates rest)

/-! ## Checkpoint directory naming and resume-from-latest selection
(train_tokenizer.py lines 91-92, 645-664, 953, 984).
Strings are embedded as `List Char`. -/

/-- Decimal digit characters of a natural number, little helper with explicit fuel
so that it reduces in the kernel. -/
def natCharsGo : ℕ → ℕ → List Char → List Char
  | 0, _, acc => acc
  | fuel + 1, n, acc =>
    if n < 10 then Char.ofNat (48 + n) :: acc
    else natCharsGo fuel (n / 10) (Char.ofNat (48 + n % 10) :: acc)

/-- Decimal representation of a natural number, as Python `str` renders a nonnegative int. -/
def natChars (n : ℕ) : List Char := natCharsGo (n + 1) n []

/-- Does the second list start with the first (Python `str.startswith`)? -/
def listStarts : List Char → List Char → Bool
  | [], _ => true
  | _ :: _, [] => false
  | a :: as, b :: bs => a = b && listStarts as bs

/-- Worker for Python `str.split(sep)` with a non-empty separator; `fuel` bounds
the recursion (call with the string length plus one). -/
def pySplitGo (sep : List Char) : ℕ → List Char → List Char → List (List Char)
  | 0, acc, rest => [acc.reverse ++ rest]
  | fuel + 1, acc, rest =>
    if listStarts sep rest then
      acc.reverse :: pySplitGo sep fuel [] (rest.drop sep.length)
    else
      match rest with
      | [] => [acc.reverse]
      | c :: rest2 => pySplitGo sep fuel (c :: acc) rest2

/-- Python `s.split(sep)` for a non-empty separator `sep`. -/
def pySplit (sep s : List Char) : List (List Char) :=
  pySplitGo sep (s.length + 1) [] s

/-- Python `int(s)` restricted to the strings appearing here (no sign, no blanks):
succeeds exactly on non-empty all-digit strings, otherwise raises ValueError (`none`). -/
def pyToNat (s : List Char) : Option ℕ :=
  if s ≠ [] ∧ s.all Char.isDigit then
    some (s.foldl (fun a c => a * 10 + (c.toNat - 48)) 0)
  else none

/-- Stable insertion into a key-sorted list (Python `sorted` is stable; an element
is inserted before the first strictly greater key when scanning the sorted tail). -/
def insertByKey (x : ℕ × List Char) : List (ℕ × List Char) → List (ℕ × List Char)
  | [] => [x]
  | y :: ys => if x.1 ≤ y.1 then x :: y :: ys else y :: insertByKey x ys

/-- Stable sort by numeric key (Python `sorted(dirs, key=...)` once all keys computed). -/
def sortByKey : List (ℕ × List Char) → List (ℕ × List Char)
  | [] => []
  | x :: xs => insertByKey x (sortByKey xs)

/-- The checkpoint directory name written by `save_checkpoint`:
the f-string `checkpoint-{model_name}{global_step}` (train_tokenizer.py line 92).
The training loop calls `save_checkpoint(..., 'tokenizer')` (lines 953 and 984). -/
def save_checkpoint_dirname (model_name : List Char) (global_step : ℕ) : List Char :=
  ("checkpoint-").toList ++ model_name ++ natChars global_step

/-- The `--resume_from_checkpoint latest` selection (train_tokenizer.py lines 650-664),
given the listing of the output directory.  Returns the chosen directory name and the
restored `global_step`; `none` models an uncaught Python exception:
  - the sort key `int(x.split("-")[1])` raises ValueError or IndexError,
  - `os.path.join(output_dir, None)` raises TypeError when no directory matched,
  - `int(os.path.basename(path).split("-tokenizer")[1])` raises IndexError or ValueError. -/
def resume_latest (listing : List (List Char)) : Option (List Char × ℕ) := do
  let dirs := listing.filter (fun d => listStarts (("checkpoint").toList) d)
  let keyed ← dirs.mapM (fun d => do
    let piece ← (pySplit (("-").toList) d).get? 1
    let k ← pyToNat piece
    pure (k, d))
  let path ← ((sortByKey keyed).map (fun kd => kd.2)).getLast?
  let piece2 ← (pySplit (("-tokenizer").toList) path).get? 1
  let n ← pyToNat piece2
  pure (path, n)

/-! ## gradient_penalty (train_tokenizer.py lines 77-88)

The autograd call `torch.autograd.grad(outputs=output, inputs=images, ...)` belongs
to the external tensor substrate (spec: out of scope / black box); its result, the
gradient tensor of `output` with respect to `images`, is the input of the embedded
function, which performs the reshape to `(bsz, -1)`, the per-row 2-norm, and the
weighted mean of squared deviations from 1 exactly as the source does. -/

/-- `gradient_penalty(images, output, weight=10)` after the autograd call:
`gradients` is the gradient of `output` w.r.t. `images`, with the batch size as
leading shape entry.  `reshape(bsz, -1)` makes row `i` the slice
`data[i*k : (i+1)*k]` of the flat data, with `k = numel / bsz`. -/
noncomputable def gradient_penalty (gradients : Tensor ℝ) (weight : ℝ := 10) : ℝ :=
  let bsz := gradients.shape.headD 0
  let k := gradients.numel / bsz
  let rows := (List.range bsz).map (fun i => (gradients.data.drop (i * k)).take k)
  weight * listMean (rows.map (fun r => (l2norm r - 1) ^ 2))

/-- The spec's formula for the gradient penalty: `weight` times the mean over the
batch of `(‖g_i‖₂ - 1)²`, with `g i j` the j-th entry of the per-batch-element
flattened gradient. -/
noncomputable def gradPenaltyFormula (B k : ℕ) (g : ℕ → ℕ → ℝ) (weight : ℝ) : ℝ :=
  weight * ((∑ i ∈ Finset.range B, (Real.sqrt (∑ j ∈ Finset.range k, g i j ^ 2) - 1) ^ 2) / (B : ℝ))

/-! ## Tensor permute (needed for the `use_3d_disc` branch of the training loop) -/

/-- All multi-indices of a shape in row-major order. -/
def idxCombos : List ℕ → List (List ℕ)
  | [] => [[]]
  | n :: rest => (List.range n).flatMap (fun i => (idxCombos rest).map (fun t => i :: t))

/-- Row-major flat offset of a multi-index. -/
def flatIndex (shape idx : List ℕ) : ℕ :=
  (List.zip shape idx).foldl (fun a p => a * p.1 + p.2) 0

/-- torch `permute(perm)` on a real tensor: output dimension `j` is input
dimension `perm[j]`. -/
def Tensor.permuteR (t : Tensor ℝ) (perm : List ℕ) : Tensor ℝ :=
  let shape2 := perm.map (fun i => t.shape.getD i 0)
  { shape := shape2,
    data := (idxCombos shape2).map (fun idx =>
      t.data.getD
        (flatIndex t.shape
          ((List.range t.shape.length).map (fun pos => idx.getD (perm.indexOf pos) 0))) 0) }

/-- torch `reshape` at a call site where the target is known to have matching
element count (the training loop reshapes `fmap` to
`(train_batch_size, segment_length, *fmap.shape[1:])`): the data is viewed
under the new shape. -/
def Tensor.reshapeView (t : Tensor ℝ) (shape2 : List ℕ) : Tensor ℝ :=
  { shape := shape2, data := t.data }

/-! ## The generator-step loss (train_tokenizer.py lines 687-697 and 743-814) -/

/-- The command-line arguments consumed by the generator step of the training loop. -/
structure TrainArgs where
  recon_weight : ℝ
  perc_weight : ℝ
  disc_weight : ℝ
  balanced_loss : Bool
  segment_length : ℕ
  context_length : ℕ
  disc_start : ℕ
  use_3d_disc : Bool
  weighted_gan : Bool
  vae_loss : List Char
  train_batch_size : ℕ

/-- `get_recon_loss(gt, recon, weights)` with `weights is None` (the loop sets
`weights = None`): elementwise squared error for `--vae_loss l2`, absolute error
otherwise, then the mean. -/
noncomputable def get_recon_loss (args : TrainArgs) (gt recon : Tensor ℝ) : ℝ :=
  let loss :=
    if args.vae_loss = ("l2").toList then
      List.zipWith (fun a b => (a - b) ^ 2) gt.data recon.data
    else
      List.zipWith (fun a b => |a - b|) gt.data recon.data
  listMean loss

/-- `x.contiguous() * 2 - 1.0`: the elementwise rescale applied before LPIPS. -/
def Tensor.rescaleToPm1 (t : Tensor ℝ) : Tensor ℝ :=
  { shape := t.shape, data := t.data.map (fun x => x * 2 - 1) }

/-- The loss backpropagated by one generator step (train_tokenizer.py lines
743-814), as a function of the black-box networks: `lpips` is the perceptual
network (spec: external collaborator; called with `weight=None`, its per-sample
output is averaged by `.mean()`), `discriminator` the adversarial discriminator,
`fmap` the model reconstruction and `commit_loss` the model's commitment loss
(both produced by the `model(pixel_values)` call at line 734).
`weights` is `None` throughout (line 741), so the `weighted_gan` branch at line
787 is never taken. -/
noncomputable def generator_step_loss (args : TrainArgs) (global_step : ℕ)
    (lpips : Tensor ℝ → Tensor ℝ → List ℝ)
    (discriminator : Tensor ℝ → List ℝ)
    (pixel_values fmap : Tensor ℝ) (commit_loss : ℝ) : ℝ :=
  let recon_loss := get_recon_loss args pixel_values fmap
  let loss :=
    if args.balanced_loss then
      args.recon_weight * recon_loss *
        ((args.segment_length : ℝ) - (args.context_length : ℝ)) / (args.segment_length : ℝ)
    else
      args.recon_weight * recon_loss
  let perceptual_loss :=
    listMean (lpips pixel_values.rescaleToPm1 fmap.rescaleToPm1)
  let loss := loss +
    (if args.balanced_loss then
      args.perc_weight * perceptual_loss *
        ((args.segment_length : ℝ) - (args.context_length : ℝ)) / (args.segment_length : ℝ)
    else
      args.perc_weight * perceptual_loss)
  let loss :=
    if args.disc_start ≤ global_step then
      let disc_fmap :=
        if args.use_3d_disc then
          (fmap.reshapeView (args.train_batch_size :: args.segment_length :: fmap.shape.drop 1)).permuteR
            [0, 2, 1, 3, 4]
        else fmap
      let gen_loss := -listMean (discriminator disc_fmap)
      loss + args.disc_weight * gen_loss
    else loss
  loss + commit_loss

/-! ## FSQ quantization and CompressiveVQModelFSQ.__init__/decode at value level
(compressive_vq_model.py lines 35-208)

The FSQ module (`ivideogpt.tokenizer.finite_scalar_quantize`, not under src/)
is modelled from the spec: "a quantization scheme mapping continuous latent
vectors to a fixed discrete grid, used as the tokenizer's bottleneck".
A latent tensor is represented by the list of its per-position latent vectors
(the `[B, D, H, W]` → positions × D-vector layout is pure bookkeeping and is
covered by the shape-level embedding below). -/

/-- Python-style round-half-up of a rational. -/
def pyRound (x : ℚ) : ℤ := ⌊x + 1 / 2⌋

/-- Modelled from the spec: one FSQ coordinate with `L` levels is snapped to the
grid point `0, …, L-1` nearest to it (clamped at the ends). -/
def fsqCoordIndex (L : ℕ) (x : ℚ) : ℕ := min (L - 1) (Int.toNat (pyRound x))

/-- Modelled from the spec: the discrete code of a latent vector is the
mixed-radix combination of its per-coordinate grid indices, an integer below
the product of the levels. -/
def fsqVecIndex (levels : List ℕ) (v : List ℚ) : ℕ :=
  (List.zip levels v).foldl (fun a p => a * p.1 + fsqCoordIndex p.1 p.2) 0

/-- Modelled from the spec: the quantized latent vector, each coordinate moved
to its grid point. -/
def fsqVecCode (levels : List ℕ) (v : List ℚ) : List ℚ :=
  (List.zip levels v).map (fun p => ((fsqCoordIndex p.1 p.2 : ℕ) : ℚ))

/-- Modelled from the spec: `FSQ.__call__` returns the quantized latents and the
integer code (`info`) of every position. -/
def fsqQuantize (levels : List ℕ) (h : List (List ℚ)) : List (List ℚ) × List ℕ :=
  (h.map (fsqVecCode levels), h.map (fsqVecIndex levels))

/-- Ascending insertion used by `sortNat`. -/
def sortedInsert (a : ℕ) : List ℕ → List ℕ
  | [] => [a]
  | b :: bs => if a ≤ b then a :: b :: bs else b :: sortedInsert a bs

/-- Insertion sort on naturals. -/
def sortNat : List ℕ → List ℕ
  | [] => []
  | a :: as => sortedInsert a (sortNat as)

/-- `torch.unique` on an integer tensor: the sorted list of distinct values. -/
def torch_unique (l : List ℕ) : List ℕ := sortNat l.dedup

/-- The configuration attributes that `CompressiveVQModelFSQ.__init__`
(lines 38-78) stores on the module. -/
structure CompressiveVQConfig where
  context_length : ℕ
  patch_size : ℕ
  latent_channels : ℕ
  in_channels : ℕ
  out_channels : ℕ
  vq_fsq_levels : List ℕ
  dyn_fsq_levels : List ℕ
  num_vq_embeddings : ℕ
  num_dyn_embeddings : ℕ

/-- `CompressiveVQModelFSQ.__init__` with integer `vq_fsq_levels` and
`dyn_fsq_levels` arguments: both are expanded by `get_fsq_levels` (a function of
`ivideogpt.tokenizer.finite_scalar_quantize`, not under src/, passed here as a
parameter) and the codebook sizes are the products of the level lists
(lines 64-77). -/
def CompressiveVQModelFSQ.init (get_fsq_levels : ℕ → List ℕ)
    (in_channels : ℕ := 3) (out_channels : ℕ := 3) (latent_channels : ℕ := 3)
    (vq_fsq_levels : ℕ := 12) (dyn_fsq_levels : ℕ := 12)
    (context_length : ℕ := 1) (patch_size : ℕ := 4) : CompressiveVQConfig :=
  let vqL := get_fsq_levels vq_fsq_levels
  let dynL := get_fsq_levels dyn_fsq_levels
  { context_length := context_length
    patch_size := patch_size
    latent_channels := latent_channels
    in_channels := in_channels
    out_channels := out_channels
    vq_fsq_levels := vqL
    dyn_fsq_levels := dynL
    num_vq_embeddings := vqL.prod
    num_dyn_embeddings := dynL.prod }

/-- The learned submodules used by `decode` after quantization.  They are
external to the quantization logic under verification: `post_quant_conv` /
`post_quant_linear` are learned 1×1-conv/linear maps, `decoder` (the plain
context decoder, `.vae`, not under src/) returns the reconstruction and the
intermediate feature maps (one list entry per feature, each a list over the
batch), `cond_decoder` (`.conditional_vae`, not under src/) decodes the dynamics
latents conditioned on those features, and `depatchify` is the pure spatial
rearrangement of lines 183-186 (its shape behaviour is embedded exactly in the
shape-level model below). -/
structure DecodeNets where
  post_quant_conv : List (List ℚ) → List (List ℚ)
  post_quant_linear : List (List ℚ) → List (List ℚ)
  depatchify : List (List ℚ) → List (List ℚ)
  decoder : List (List ℚ) → List (List ℚ) × List (List (List ℚ))
  cond_decoder : List (List ℚ) → List (List (List ℚ)) → List (List ℚ)

/-- The `f.unsqueeze(1).repeat(1, segment_len, 1, 1, 1).reshape(-1, *f.shape[-3:])`
broadcast of a feature (context_length = 1 branch, lines 195-196): every batch
element is repeated `segment_len` times in place. -/
def repeat_interleave (segment_len : ℕ) (f : List (List ℚ)) : List (List ℚ) :=
  f.flatMap (fun v => List.replicate segment_len v)

/-- The context_length > 1 broadcast of a feature (lines 190-193): the batch is
viewed as `B` blocks of `context_length` frames, and each block is repeated
`segment_len` times (the block of frames is the innermost axis of the result). -/
def repeat_interleave_ctx (B context_length segment_len : ℕ)
    (f : List (List ℚ)) : List (List ℚ) :=
  (List.range B).flatMap (fun b =>
    (List.range segment_len).map (fun _ =>
      ((List.range context_length).map (fun t => f.getD (b * context_length + t) [])).flatten))

/-- The value-level output of `decode` (the `CompressiveVQDecoderOutput`
dataclass of lines 26-32). -/
structure CompressiveVQDecoderOutput where
  sample : List (List ℚ)
  ref_sample : List (List ℚ)
  commit_loss : ℚ
  dyn_commit_loss : ℚ

/-- The attributes `decode` assigns on `self` (lines 169-176). -/
structure DecodeSideEffects where
  code_util : ℚ
  unique_code : List ℕ
  world_code_util : ℚ
  world_unique_code : List ℕ

/-- `CompressiveVQModelFSQ.decode` (lines 161-208) at value level.  `h` is the
context latent (one vector per spatial position) and `d` the dynamics latent
(one vector per token position; the `[B, L, D] ⇄ [B, D, L, 1]` transposes of
lines 172 and 177 are the identity on this per-position-vector representation).
Returns the decoder output together with the attributes stored on `self`. -/
def CompressiveVQModelFSQ.decode (cfg : CompressiveVQConfig) (nets : DecodeNets)
    (segment_len : ℕ) (h d : List (List ℚ)) :
    CompressiveVQDecoderOutput × DecodeSideEffects :=
  let q := fsqQuantize cfg.vq_fsq_levels h
  let quant := q.1
  let info := q.2
  let commit_loss : ℚ := 0
  let code_util : ℚ := ((torch_unique info).length : ℚ) / (cfg.num_vq_embeddings : ℚ)
  let unique_code := torch_unique info
  let qd := fsqQuantize cfg.dyn_fsq_levels d
  let quant_d := qd.1
  let dyn_info := qd.2
  let dyn_commit_loss : ℚ := 0
  let world_code_util : ℚ := ((torch_unique info).length : ℚ) / (cfg.num_vq_embeddings : ℚ)
  let world_unique_code := torch_unique info
  let quant2 := nets.post_quant_conv quant
  let quant2_d := nets.depatchify (nets.post_quant_linear quant_d)
  let dcr := nets.decoder quant2
  let ref_dec := dcr.1
  let cond_features :=
    if 1 < cfg.context_length then
      dcr.2.map (fun f =>
        repeat_interleave_ctx (quant2_d.length / segment_len) cfg.context_length segment_len f)
    else
      dcr.2.map (repeat_interleave segment_len)
  let dec := nets.cond_decoder quant2_d cond_features
  ({ sample := dec, ref_sample := ref_dec,
     commit_loss := commit_loss, dyn_commit_loss := dyn_commit_loss },
   { code_util := code_util, unique_code := unique_code,
     world_code_util := world_code_util, world_unique_code := world_unique_code })

/-! ## Shape-level semantics of the torch operations used by tokenize/detokenize
(compressive_vq_model.py lines 249-346)

A tensor is represented by its shape; every operation returns `none` when torch
would raise a runtime error (shape mismatch, impossible `-1` inference, division
by zero).  The convolutional encoders/decoders (`.vae` and `.conditional_vae` of
the ctx_tokenizer, not under src/) are modelled from the spec as shape
transformers. -/

/-- A tensor shape. -/
abbrev Shape := List ℕ

/-- Monadic bind on `Option`, written out so the long operation chains below
stay cheap for the compiler. -/
def obind {α β : Type} (x : Option α) (f : α → Option β) : Option β :=
  match x with
  | none => none
  | some a => f a

/-- torch `reshape` of a tensor with `numel` elements to `target`, whose entries
may include a single `-1`: with no `-1` the target must have exactly `numel`
elements; with one `-1` the remaining entries must have a positive product
dividing `numel`, and the `-1` becomes the quotient. -/
def inferReshape (numel : ℕ) (target : List ℤ) : Option Shape :=
  let negs := target.filter (fun x => x < 0)
  if negs = [] then
    if (target.map Int.toNat).prod = numel then some (target.map Int.toNat) else none
  else if negs = [-1] then
    let known := ((target.filter (fun x => 0 ≤ x)).map Int.toNat).prod
    if 0 < known ∧ known ∣ numel then
      some (target.map (fun x => if x < 0 then numel / known else Int.toNat x))
    else none
  else none

/-- `t.reshape(target)` at shape level. -/
def reshapeTo (s : Shape) (target : List ℤ) : Option Shape := inferReshape s.prod target

/-- Python `a // b` (ZeroDivisionError as `none`; the operands here are naturals). -/
def pyFloorDiv (a b : ℕ) : Option ℕ := if b = 0 then none else some (a / b)

/-- The last `k` dimensions, as Python `shape[-k:]`. -/
def lastDims (k : ℕ) (s : Shape) : List ℕ := s.drop (s.length - k)

/-- `unsqueeze(1)`: insert a dimension of size 1 after the leading one. -/
def unsqueezeAt1 (s : Shape) : Option Shape :=
  match s with
  | n :: rest => some (n :: 1 :: rest)
  | [] => none

/-- torch `repeat(reps)` at the call sites here, where `reps` names every
dimension: elementwise product of shape and repetition counts. -/
def torchRepeat (reps : List ℕ) (s : Shape) : Option Shape :=
  if reps.length = s.length then some (List.zipWith (fun a b => a * b) s reps) else none

/-- torch `unfold(dim, size, step)`: dimension `dim` (which must be at least
`size`) is windowed to `(n - size) / step + 1` windows and a new dimension of
length `size` is appended. -/
def unfoldDim (dim size step : ℕ) (s : Shape) : Option Shape :=
  match s.get? dim with
  | some n =>
    if size ≤ n ∧ 0 < step then some ((s.set dim ((n - size) / step + 1)) ++ [size])
    else none
  | none => none

/-- `transpose(-1, -2)`: swap the two trailing dimensions. -/
def transposeLast2 (s : Shape) : Option Shape :=
  match s.reverse with
  | a :: b :: rest => some ((b :: a :: rest).reverse)
  | _ => none

/-- `permute(0, 2, 3, 1)` on a 4-d tensor. -/
def permute0231 (s : Shape) : Option Shape :=
  match s with
  | a :: b :: c :: d :: [] => some (a :: c :: d :: b :: [])
  | _ => none

/-- `permute(0, 3, 1, 2)` on a 4-d tensor. -/
def permute0312 (s : Shape) : Option Shape :=
  match s with
  | a :: b :: c :: d :: [] => some (a :: d :: b :: c :: [])
  | _ => none

/-- `permute(0, 1, 2, 4, 5, 3)` on a 6-d tensor. -/
def permute012453 (s : Shape) : Option Shape :=
  match s with
  | a0 :: a1 :: a2 :: a3 :: a4 :: a5 :: [] => some (a0 :: a1 :: a2 :: a4 :: a5 :: a3 :: [])
  | _ => none

/-- `torch.einsum("nhwpqc->nchpwq", ·)` at shape level. -/
def einsum_nhwpqc_nchpwq (s : Shape) : Option Shape :=
  match s with
  | n :: hh :: ww :: p :: q :: c :: [] => some (n :: c :: hh :: p :: ww :: q :: [])
  | _ => none

/-- A 1×1 convolution (`quant_conv` / `post_quant_conv`): requires a 4-d input
with `cin` channels and replaces the channel dimension by `cout`. -/
def conv2d1x1 (cin cout : ℕ) (s : Shape) : Option Shape :=
  match s with
  | n :: c :: hh :: ww :: [] =>
    if c = cin then some (n :: cout :: hh :: ww :: []) else none
  | _ => none

/-- A linear layer (`quant_linear` / `post_quant_linear`): requires the trailing
dimension to equal `inF` and replaces it by `outF`. -/
def linearLast (inF outF : ℕ) (s : Shape) : Option Shape :=
  match s.getLast? with
  | some l => if l = inF then some (s.dropLast ++ [outF]) else none
  | none => none

/-- FSQ at shape level: the input is channel-first `[N, D, ...]` with `D` the
number of levels; `info` drops the channel dimension (one integer code per
remaining position).  Modelled from the spec and the call sites (lines 284-291,
the quantized tensor keeps the input shape). -/
def fsqInfoShape (levels : List ℕ) (s : Shape) : Option Shape :=
  match s with
  | n :: d :: rest => if d = levels.length then some (n :: rest) else none
  | _ => none

/-- `FSQ.indices_to_codes` at shape level on a 2-d index tensor `[B, M]`:
each index expands to its code vector, giving `[B, M, len(levels)]`
(modelled from the spec and the call sites, lines 307-313). -/
def indicesToCodesShape (levels : List ℕ) (s : Shape) : Option Shape :=
  match s with
  | b :: m :: [] => some (b :: m :: levels.length :: [])
  | _ => none

/-- Shape behaviour of the network modules around the quantizers.
`in_channels`/`out_channels` are pixel-space channel counts; the four
encoder/decoder spatial maps are the architecture-determined functions from an
input side length to the output side length.  Modelled from the spec: the
context encoder (`Encoder` of `.vae`, not under src/) maps `[N, C, H, W]` to
`[N, latent_channels, encH H, encW W]` and also returns intermediate feature
maps of trailing shape `encFeats H W`, each with leading (batch) dimension `N`;
the conditional encoder consumes those features (their batch must match its
input batch) and produces `[N, latent_channels, condEncH H, condEncW W]`;
the decoders are the mirror images producing `out_channels` channels, the plain
decoder also returning features consumed by the conditional decoder. -/
structure NetShapes where
  encH : ℕ → ℕ
  encW : ℕ → ℕ
  encFeats : ℕ → ℕ → List (ℕ × ℕ × ℕ)
  condEncH : ℕ → ℕ
  condEncW : ℕ → ℕ
  decH : ℕ → ℕ
  decW : ℕ → ℕ
  decFeats : ℕ → ℕ → List (ℕ × ℕ × ℕ)
  condDecH : ℕ → ℕ
  condDecW : ℕ → ℕ

/-- Modelled from the spec: `self.encoder(x, return_features=True)` at shape
level. -/
def encoderShape (cfg : CompressiveVQConfig) (nets : NetShapes) (s : Shape) :
    Option (Shape × List Shape) :=
  match s with
  | n :: c :: hh :: ww :: [] =>
    if c = cfg.in_channels then
      some ((n :: cfg.latent_channels :: nets.encH hh :: nets.encW ww :: []),
            (nets.encFeats hh ww).map (fun f => n :: f.1 :: f.2.1 :: f.2.2 :: []))
    else none
  | _ => none

/-- Modelled from the spec: `self.cond_encoder(x, cond_features)` at shape
level; every conditioning feature must carry the same batch as the input. -/
def condEncoderShape (cfg : CompressiveVQConfig) (nets : NetShapes) (s : Shape)
    (feats : List Shape) : Option Shape :=
  match s with
  | n :: c :: hh :: ww :: [] =>
    if c = cfg.in_channels ∧ feats.all (fun f => f.headD 0 = n) then
      some (n :: cfg.latent_channels :: nets.condEncH hh :: nets.condEncW ww :: [])
    else none
  | _ => none

/-- Modelled from the spec: `self.decoder(x, return_features=True)` at shape
level. -/
def decoderShape (cfg : CompressiveVQConfig) (nets : NetShapes) (s : Shape) :
    Option (Shape × List Shape) :=
  match s with
  | n :: c :: hh :: ww :: [] =>
    if c = cfg.latent_channels then
      some ((n :: cfg.out_channels :: nets.decH hh :: nets.decW ww :: []),
            (nets.decFeats hh ww).map (fun f => n :: f.1 :: f.2.1 :: f.2.2 :: []))
    else none
  | _ => none

/-- Modelled from the spec: `self.cond_decoder(x, cond_features)` at shape
level; every conditioning feature must carry the same batch as the input. -/
def condDecoderShape (cfg : CompressiveVQConfig) (nets : NetShapes) (s : Shape)
    (feats : List Shape) : Option Shape :=
  match s with
  | n :: c :: hh :: ww :: [] =>
    if c = cfg.latent_channels ∧ feats.all (fun f => f.headD 0 = n) then
      some (n :: cfg.out_channels :: nets.condDecH hh :: nets.condDecW ww :: [])
    else none
  | _ => none

/-- `torch.cat([a, b], dim=1)` at shape level. -/
def catDim1 (s1 s2 : Shape) : Option Shape :=
  match s1, s2 with
  | a :: b :: r1, c :: d :: r2 =>
    if a = c ∧ r1 = r2 then some (a :: (b + d) :: r1) else none
  | _, _ => none

/-- Errors a Python method can surface: a failed `assert`, or any runtime error
raised by the tensor library (shape mismatch, zero division, bad index). -/
inductive PyErr where
  | assertFail
  | runtimeFail
deriving DecidableEq

/-- The per-feature broadcast of the `context_length > 1` branches (lines
263-267 and 328-332):
`f.reshape(B, context_length, *f.shape[-3:]).unsqueeze(1)
 .repeat(1, future_length, 1, 1, 1, 1).reshape(-1, context_length, *f.shape[-3:])`. -/
def feat_broadcast_ctx (context_length future_length Bcur : ℕ) (f : Shape) : Option Shape :=
  let l3 := lastDims 3 f
  obind (reshapeTo f
      ((Bcur : ℤ) :: (context_length : ℤ) :: l3.map (fun (n : ℕ) => (n : ℤ)))) fun f1 =>
  obind (unsqueezeAt1 f1) fun f2 =>
  obind (torchRepeat (1 :: future_length :: 1 :: 1 :: 1 :: 1 :: []) f2) fun f3 =>
  reshapeTo f3 ((-1) :: (context_length : ℤ) :: l3.map (fun (n : ℕ) => (n : ℤ)))

/-- The per-feature broadcast of the `context_length = 1` branches (lines
269-272 and 334-335):
`f.unsqueeze(1).repeat(1, future_length, 1, 1, 1).reshape(-1, *f.shape[-3:])`. -/
def feat_broadcast_plain (future_length : ℕ) (f : Shape) : Option Shape :=
  let l3 := lastDims 3 f
  obind (unsqueezeAt1 f) fun f2 =>
  obind (torchRepeat (1 :: future_length :: 1 :: 1 :: 1 :: []) f2) fun f3 =>
  reshapeTo f3 ((-1) :: l3.map (fun (n : ℕ) => (n : ℤ)))

/-- Body of `CompressiveVQModelFSQ.tokenize` after its assert (lines 253-293). -/
def tokenize_body (cfg : CompressiveVQConfig) (nets : NetShapes)
    (pixel_values : Shape) (context_length : ℕ) : Option (Shape × Shape) :=
  match pixel_values with
  | B :: T :: C :: H :: W :: [] =>
    obind (reshapeTo (B :: min context_length T :: C :: H :: W :: [])
        [-1, (C : ℤ), (H : ℤ), (W : ℤ)]) fun context_frames =>
    obind (reshapeTo (B :: (T - context_length) :: C :: H :: W :: [])
        [-1, (C : ℤ), (H : ℤ), (W : ℤ)]) fun future_frames =>
    let future_length := T - context_length
    obind (encoderShape cfg nets context_frames) fun hf =>
    let h0 := hf.1
    let feats := hf.2
    obind (if 1 < cfg.context_length then pyFloorDiv (future_frames.headD 0) future_length
      else some B) fun Bcur =>
    obind (if 1 < cfg.context_length then
        feats.mapM (feat_broadcast_ctx cfg.context_length future_length Bcur)
      else
        feats.mapM (feat_broadcast_plain future_length)) fun cond_features =>
    obind (conv2d1x1 cfg.latent_channels cfg.vq_fsq_levels.length h0) fun h =>
    obind (condEncoderShape cfg nets future_frames cond_features) fun d0 =>
    let p := cfg.patch_size
    obind (permute0231 d0) fun d1 =>
    obind (unfoldDim 1 p p d1) fun d2 =>
    obind (unfoldDim 2 p p d2) fun d3 =>
    obind (permute012453 d3) fun d4 =>
    obind (reshapeTo d4
        ((d4.headD 0 : ℤ) :: ((d4.getD 1 0) * (d4.getD 2 0) : ℕ) :: [(-1 : ℤ)])) fun d5 =>
    obind (linearLast (cfg.latent_channels * p * p) cfg.dyn_fsq_levels.length d5) fun d6 =>
    obind (fsqInfoShape cfg.vq_fsq_levels h) fun info =>
    obind (transposeLast2 d6) fun d7 =>
    let d8 := d7 ++ [1]
    obind (fsqInfoShape cfg.dyn_fsq_levels d8) fun info_d =>
    obind (reshapeTo info ((Bcur : ℤ) :: (context_length : ℤ) :: [(-1 : ℤ)])) fun indices_c =>
    obind (reshapeTo info_d ((Bcur : ℤ) :: (future_length : ℤ) :: [(-1 : ℤ)])) fun indices_d =>
    some (indices_c, indices_d)
  | _ => none

/-- `CompressiveVQModelFSQ.tokenize(pixel_values, context_length=1)` (lines
249-293) at shape level: the assert of line 251 first, then the body; any torch
runtime error surfaces as `runtimeFail`. -/
def CompressiveVQModelFSQ.tokenize (cfg : CompressiveVQConfig) (nets : NetShapes)
    (pixel_values : Shape) (context_length : ℕ := 1) : Except PyErr (Shape × Shape) :=
  if context_length = cfg.context_length then
    match tokenize_body cfg nets pixel_values context_length with
    | some r => .ok r
    | none => .error .runtimeFail
  else .error .assertFail

/-- Body of `CompressiveVQModelFSQ.detokenize` after its assert (lines 298-346),
with `cache=None` and `return_cache=False`. -/
def detokenize_body (cfg : CompressiveVQConfig) (nets : NetShapes)
    (indices_c indices_d : Shape) (context_length : ℕ) : Option Shape :=
  obind (indices_d.get? 1) fun future_length =>
  obind (indices_c.get? 0) fun B =>
  obind (reshapeTo indices_c ((B : ℤ) :: [(-1 : ℤ)])) fun ic =>
  obind (reshapeTo indices_d ((B : ℤ) :: [(-1 : ℤ)])) fun idd =>
  obind (indicesToCodesShape cfg.vq_fsq_levels ic) fun quant0 =>
  obind (reshapeTo quant0
      ((B * context_length : ℕ) :: (32 : ℤ) :: (40 : ℤ) :: [(cfg.vq_fsq_levels.length : ℤ)]))
    fun quant1 =>
  obind (permute0312 quant1) fun quant1p =>
  obind (conv2d1x1 cfg.vq_fsq_levels.length cfg.latent_channels quant1p) fun quant2 =>
  obind (indicesToCodesShape cfg.dyn_fsq_levels idd) fun quant_d0 =>
  obind (reshapeTo quant_d0 ((-1) :: (8 * 10 : ℕ) :: [(cfg.dyn_fsq_levels.length : ℤ)]))
    fun quant_d1 =>
  let p := cfg.patch_size
  obind (linearLast cfg.dyn_fsq_levels.length (cfg.latent_channels * p * p) quant_d1)
    fun quant2_d0 =>
  let hh := quant2.getD (quant2.length - 2) 0
  let ww := quant2.getLastD 0
  obind (reshapeTo quant2_d0
      ((quant2_d0.headD 0 : ℤ) :: (hh / p : ℕ) :: (ww / p : ℕ) :: (p : ℤ) :: (p : ℤ) ::
        [(cfg.latent_channels : ℤ)])) fun qd2 =>
  obind (einsum_nhwpqc_nchpwq qd2) fun qd3 =>
  obind (reshapeTo qd3
      ((qd3.headD 0 : ℤ) :: (cfg.latent_channels : ℤ) :: (hh : ℤ) :: [(ww : ℤ)])) fun qd4 =>
  obind (decoderShape cfg nets quant2) fun cdf =>
  let context_dec0 := cdf.1
  let feats := cdf.2
  obind (if 1 < context_length then pyFloorDiv (qd4.headD 0) future_length
    else some B) fun Bcur =>
  obind (if 1 < context_length then
      feats.mapM (feat_broadcast_ctx context_length future_length Bcur)
    else
      feats.mapM (feat_broadcast_plain future_length)) fun cond_features =>
  obind (condDecoderShape cfg nets qd4 cond_features) fun dec0 =>
  obind (reshapeTo context_dec0
      ((Bcur : ℤ) :: (context_length : ℤ) :: (lastDims 3 context_dec0).map (fun (n : ℕ) => (n : ℤ))))
    fun context_dec =>
  obind (reshapeTo dec0
      ((Bcur : ℤ) :: (future_length : ℤ) :: (lastDims 3 dec0).map (fun (n : ℕ) => (n : ℤ)))) fun dec =>
  catDim1 context_dec dec

/-- `CompressiveVQModelFSQ.detokenize(indices_c, indices_d, context_length=1)`
(lines 295-346) at shape level, default `cache`/`return_cache`: the assert of
line 297 first, then the body. -/
def CompressiveVQModelFSQ.detokenize (cfg : CompressiveVQConfig) (nets : NetShapes)
    (indices_c indices_d : Shape) (context_length : ℕ := 1) : Except PyErr Shape :=
  if context_length = cfg.context_length then
    match detokenize_body cfg nets indices_c indices_d context_length with
    | some r => .ok r
    | none => .error .runtimeFail
  else .error .assertFail

/-! ## Concrete instantiations used for closed evaluations -/

/-- A concrete instantiation of the modelled network shape maps, matching the
documented geometry (8× spatial downsampling to the 32×40 context latent of a
256×320 frame, two intermediate features, conditional encoder at the same
resolution so that 4×4 patchification yields the 8×10 dynamics grid). -/
def sampleNets : NetShapes :=
  { encH := fun h => h / 8
    encW := fun w => w / 8
    encFeats := fun h w => [(64, h / 2, w / 2), (128, h / 4, w / 4)]
    condEncH := fun h => h / 8
    condEncW := fun w => w / 8
    decH := fun h => h * 8
    decW := fun w => w * 8
    decFeats := fun h w => [(128, h * 2, w * 2)]
    condDecH := fun h => h * 8
    condDecW := fun w => w * 8 }

/-- A concrete model configuration: `get_fsq_levels` returning the 3-dimensional
level list `[8, 6, 5]` with all other constructor arguments at their defaults. -/
def sampleCfg : CompressiveVQConfig :=
  CompressiveVQModelFSQ.init (fun _ => [8, 6, 5])

/-- A concrete instantiation of the black-box decode submodules (identity-like
maps; the claims about `decode` hold for every instantiation). -/
def sampleDecodeNets : DecodeNets :=
  { post_quant_conv := fun q => q
    post_quant_linear := fun q => q
    depatchify := fun q => q
    decoder := fun q => (q, [q])
    cond_decoder := fun q _ => q }

/-- A concrete argument record for the training loop (balanced_loss and
use_3d_disc off, l2 reconstruction loss). -/
def sampleArgs : TrainArgs :=
  { recon_weight := 1
    perc_weight := 2
    disc_weight := 3
    balanced_loss := false
    segment_length := 8
    context_length := 1
    disc_start := 4
    use_3d_disc := false
    weighted_gan := false
    vae_loss := ("l2").toList
    train_batch_size := 2 }

/-! # Theorems -/

/-! ### Small helper lemmas -/

theorem obind_some {α β : Type} (a : α) (f : α → Option β) : obind (some a) f = f a := rfl

theorem obind_none {α β : Type} (f : α → Option β) : obind (none : Option α) f = none := rfl

/-- Closed form of a run of `update` calls from any state with nonnegative
count, when every call has a positive count. -/
theorem runUpdates_closed_form (s : AverageMeter) (updates : List (ℚ × ℕ))
    (h0 : 0 ≤ s.count) (hne : updates ≠ []) (hpos : ∀ u ∈ updates, 1 ≤ u.2) :
    AverageMeter.runUpdates s updates =
      some { val := (updates.getLast?.getD (0, 0)).1
             sum := s.sum + (updates.map (fun u => u.1 * (u.2 : ℚ))).sum
             count := s.count + (updates.map (fun u => ((u.2 : ℕ) : ℚ))).sum
             avg := (s.sum + (updates.map (fun u => u.1 * (u.2 : ℚ))).sum) /
                    (s.count + (updates.map (fun u => ((u.2 : ℕ) : ℚ))).sum) } := by
  induction updates generalizing s with
  | nil => exact absurd rfl hne
  | cons u rest ih =>
    have hu : 1 ≤ u.2 := hpos u (List.mem_cons_self u rest)
    have huq : (1 : ℚ) ≤ (u.2 : ℚ) := by exact_mod_cast hu
    have hcount : ¬ (s.count + (u.2 : ℚ) = 0) := by
      intro hzero
      nlinarith
    have hstep : AverageMeter.update s u.1 u.2 =
        some { val := u.1, sum := s.sum + u.1 * (u.2 : ℚ), count := s.count + (u.2 : ℚ),
               avg := (s.sum + u.1 * (u.2 : ℚ)) / (s.count + (u.2 : ℚ)) } := by
      simp [AverageMeter.update, hcount]
    cases rest with
    | nil =>
      simp [AverageMeter.runUpdates, hstep]
    | cons v rest2 =>
      have hrec := ih { val := u.1, sum := s.sum + u.1 * (u.2 : ℚ),
                        count := s.count + (u.2 : ℚ),
                        avg := (s.sum + u.1 * (u.2 : ℚ)) / (s.count + (u.2 : ℚ)) }
        (by positivity) (by simp)
        (fun w hw => hpos w (List.mem_cons_of_mem u hw))
      show (AverageMeter.update s u.1 u.2).bind
          (fun m2 => AverageMeter.runUpdates m2 (v :: rest2)) = _
      rw [hstep, Option.some_bind, hrec]
      simp only [List.map_cons, List.sum_cons, List.getLast?_cons_cons,
        Option.some.injEq, AverageMeter.mk.injEq]
      refine ⟨trivial, ?_, ?_, ?_⟩ <;> ring

/-! ### The claims -/

/-- C1 (amended): for every input pair (h, d), `CompressiveVQModelFSQ.decode`
returns `commit_loss = 0` and `dyn_commit_loss = 0`: both are the constant zero
tensors of lines 168 and 174 and do not depend on the quantization discrepancy
(FSQ needs no commitment loss). -/
theorem decode_commit_losses_zero (cfg : CompressiveVQConfig) (nets : DecodeNets)
    (segment_len : ℕ) (h d : List (List ℚ)) :
    (CompressiveVQModelFSQ.decode cfg nets segment_len h d).1.commit_loss = 0 ∧
    (CompressiveVQModelFSQ.decode cfg nets segment_len h d).1.dyn_commit_loss = 0 :=
  ⟨rfl, rfl⟩

/-- C1 counterexample: at the context latent vector (1/2, 0, 0) the FSQ
quantization changes the latent (its quantized code is (1, 0, 0)), yet `decode`
returns `commit_loss = 0` and `dyn_commit_loss = 0`, refuting "nonzero whenever
quantization changes the latent". -/
theorem decode_commit_loss_counterexample :
    (fsqQuantize sampleCfg.vq_fsq_levels [[1/2, 0, 0]]).1 ≠ [[(1/2 : ℚ), 0, 0]] ∧
    (CompressiveVQModelFSQ.decode sampleCfg sampleDecodeNets 1
      [[1/2, 0, 0]] [[0, 0, 0]]).1.commit_loss = 0 ∧
    (CompressiveVQModelFSQ.decode sampleCfg sampleDecodeNets 1
      [[1/2, 0, 0]] [[0, 0, 0]]).1.dyn_commit_loss = 0 := by
  refine ⟨?_, rfl, rfl⟩
  have hq : (fsqQuantize sampleCfg.vq_fsq_levels [[1/2, 0, 0]]).1 = [[(1 : ℚ), 0, 0]] := by
    have hfloor1 : pyRound ((2 : ℚ)⁻¹) = 1 := by norm_num [pyRound]
    have hfloor0 : pyRound (0 : ℚ) = 0 := by norm_num [pyRound]
    simp [sampleCfg, CompressiveVQModelFSQ.init, fsqQuantize, fsqVecCode, fsqCoordIndex,
      hfloor1, hfloor0]
  rw [hq]
  intro hEq
  norm_num at hEq

/-- C4: the training loop saves checkpoints under the name
`checkpoint-tokenizer{global_step}` (save_checkpoint with model_name
'tokenizer', lines 92, 953, 984), but the `--resume_from_checkpoint latest`
branch sorts the checkpoint directories with the key `int(x.split("-")[1])`,
which raises ValueError on `tokenizer5000`; the resume procedure therefore
crashes instead of selecting the newest checkpoint and restoring
`global_step = 5000`. -/
theorem resume_latest_crash :
    save_checkpoint_dirname (("tokenizer").toList) 5000 =
      ("checkpoint-tokenizer5000").toList ∧
    resume_latest [("checkpoint-tokenizer5000").toList] = none :=
  ⟨by decide, by decide⟩

/-- C8: after `decode`, `world_code_util` and `world_unique_code` equal
`code_util` and `unique_code` (all four are computed from the context-path
indices `info`, lines 169-176), and the dynamics-path input never influences
the world statistics. -/
theorem decode_world_stats_from_context_info (cfg : CompressiveVQConfig)
    (nets : DecodeNets) (segment_len : ℕ) (h d d2 : List (List ℚ)) :
    ((CompressiveVQModelFSQ.decode cfg nets segment_len h d).2.world_code_util =
      (CompressiveVQModelFSQ.decode cfg nets segment_len h d).2.code_util) ∧
    ((CompressiveVQModelFSQ.decode cfg nets segment_len h d).2.world_unique_code =
      (CompressiveVQModelFSQ.decode cfg nets segment_len h d).2.unique_code) ∧
    ((CompressiveVQModelFSQ.decode cfg nets segment_len h d).2.world_code_util =
      (CompressiveVQModelFSQ.decode cfg nets segment_len h d2).2.world_code_util) ∧
    ((CompressiveVQModelFSQ.decode cfg nets segment_len h d).2.world_unique_code =
      (CompressiveVQModelFSQ.decode cfg nets segment_len h d2).2.world_unique_code) :=
  ⟨rfl, rfl, rfl, rfl⟩

/-- C9: `tokenize` and `detokenize` fail their assert exactly when the
`context_length` argument differs from the configured one; under the
precondition the assertion-failure branch is unreachable (any remaining error
is a tensor runtime error, never the assert). -/
theorem tokenize_detokenize_assert (cfg : CompressiveVQConfig) (nets : NetShapes)
    (pixel_values indices_c indices_d : Shape) (ctx : ℕ) :
    (ctx ≠ cfg.context_length →
      CompressiveVQModelFSQ.tokenize cfg nets pixel_values ctx = .error .assertFail ∧
      CompressiveVQModelFSQ.detokenize cfg nets indices_c indices_d ctx = .error .assertFail) ∧
    (ctx = cfg.context_length →
      CompressiveVQModelFSQ.tokenize cfg nets pixel_values ctx ≠ .error .assertFail ∧
      CompressiveVQModelFSQ.detokenize cfg nets indices_c indices_d ctx ≠ .error .assertFail) := by
  constructor
  · intro hne
    constructor
    · simp [CompressiveVQModelFSQ.tokenize, hne]
    · simp [CompressiveVQModelFSQ.detokenize, hne]
  · intro heq
    constructor
    · simp only [CompressiveVQModelFSQ.tokenize, if_pos heq]
      cases tokenize_body cfg nets pixel_values ctx <;> simp
    · simp only [CompressiveVQModelFSQ.detokenize, if_pos heq]
      cases detokenize_body cfg nets indices_c indices_d ctx <;> simp

/-- Witness for C9 at a concrete model (context_length 1) and concrete inputs. -/
theorem tokenize_detokenize_assert_witness :
    (CompressiveVQModelFSQ.tokenize sampleCfg sampleNets [1, 2, 3, 256, 320] 2 =
      .error .assertFail) ∧
    (CompressiveVQModelFSQ.detokenize sampleCfg sampleNets [1, 1, 1280] [1, 1, 80] 2 =
      .error .assertFail) ∧
    (CompressiveVQModelFSQ.tokenize sampleCfg sampleNets [1, 2, 3, 256, 320] 1 ≠
      .error .assertFail) ∧
    (CompressiveVQModelFSQ.detokenize sampleCfg sampleNets [1, 1, 1280] [1, 1, 80] 1 ≠
      .error .assertFail) := by
  have h2 := tokenize_detokenize_assert sampleCfg sampleNets
    [1, 2, 3, 256, 320] [1, 1, 1280] [1, 1, 80] 2
  have h1 := tokenize_detokenize_assert sampleCfg sampleNets
    [1, 2, 3, 256, 320] [1, 1, 1280] [1, 1, 80] 1
  have hne : (2 : ℕ) ≠ sampleCfg.context_length := by decide
  have heq : (1 : ℕ) = sampleCfg.context_length := rfl
  exact ⟨(h2.1 hne).1, (h2.1 hne).2, (h1.2 heq).1, (h1.2 heq).2⟩

/-- C10 (amended): after `reset()` followed by any non-empty sequence of
`update(val, n)` calls in which every count `n` is positive, the meter holds
`count = Σ n`, `sum = Σ val·n`, `avg = sum / count` and `val` = the last value
passed. -/
theorem average_meter_invariant (m : AverageMeter) (updates : List (ℚ × ℕ))
    (hne : updates ≠ []) (hpos : ∀ u ∈ updates, 1 ≤ u.2) :
    AverageMeter.runUpdates m.reset updates =
      some { val := (updates.getLast?.getD (0, 0)).1
             sum := (updates.map (fun u => u.1 * (u.2 : ℚ))).sum
             count := (updates.map (fun u => ((u.2 : ℕ) : ℚ))).sum
             avg := (updates.map (fun u => u.1 * (u.2 : ℚ))).sum /
                    (updates.map (fun u => ((u.2 : ℕ) : ℚ))).sum } := by
  have h := runUpdates_closed_form m.reset updates (by simp [AverageMeter.reset]) hne hpos
  simpa [AverageMeter.reset] using h

/-- Witness for C10 at the concrete run update(2, 3); update(5, 1). -/
theorem average_meter_invariant_witness :
    AverageMeter.runUpdates (AverageMeter.mk 0 0 0 0).reset [((2 : ℚ), 3), ((5 : ℚ), 1)] =
      some { val := 5, sum := 11, count := 4, avg := 11 / 4 } := by
  have h := average_meter_invariant (AverageMeter.mk 0 0 0 0) [((2 : ℚ), 3), ((5 : ℚ), 1)]
    (by simp) (by intro u hu; fin_cases hu <;> norm_num)
  rw [h]
  norm_num

/-- Sum of a mapped slice of a list, as a finite sum of its entries. -/
theorem sum_map_slice (l : List ℝ) (f : ℝ → ℝ) (a k : ℕ) (h : a + k ≤ l.length) :
    ((((l.drop a).take k)).map f).sum = ∑ j ∈ Finset.range k, f (l.getD (a + j) 0) := by
  induction k generalizing a with
  | zero => simp
  | succ k ih =>
    have ha : a < l.length := by omega
    rw [List.drop_eq_getElem_cons ha]
    have hgd : l.getD (a + 0) 0 = l[a] := by
      simpa using List.getD_eq_getElem l 0 ha
    rw [Finset.sum_range_succ']
    simp only [List.take_succ_cons, List.map_cons, List.sum_cons, hgd]
    have hrec := ih (a + 1) (by omega)
    rw [hrec]
    have hcongr : ∀ j ∈ Finset.range k, f (l.getD (a + 1 + j) 0) = f (l.getD (a + (j + 1)) 0) := by
      intro j _
      rw [show a + 1 + j = a + (j + 1) by omega]
    rw [Finset.sum_congr rfl hcongr]
    ring

/-- C5: `gradient_penalty(images, output, weight)` returns `weight` times the
mean over the `B` batch elements of `(‖g_i‖₂ - 1)²`, where `g_i` is the
gradient of `output` with respect to `images` flattened per batch element
(the j-th entry of `g_i` sits at flat offset `i·k + j`). -/
theorem gradient_penalty_eq (t : Tensor ℝ) (weight : ℝ) (B : ℕ) (rest : List ℕ)
    (hshape : t.shape = B :: rest) (hdata : t.data.length = B * rest.prod) (hB : 0 < B) :
    gradient_penalty t weight =
      gradPenaltyFormula B rest.prod (fun i j => t.data.getD (i * rest.prod + j) 0) weight := by
  obtain ⟨sh, data⟩ := t
  simp only at hshape hdata
  subst hshape
  unfold gradient_penalty gradPenaltyFormula Tensor.numel listMean l2norm
  simp only [List.headD_cons, List.prod_cons]
  have hk : B * rest.prod / B = rest.prod := Nat.mul_div_cancel_left rest.prod hB
  rw [hk]
  have hrows : ∀ i ∈ Finset.range B,
      (Real.sqrt ((((data.drop (i * rest.prod)).take rest.prod).map (fun x => x ^ 2)).sum) - 1) ^ 2 =
      (Real.sqrt (∑ j ∈ Finset.range rest.prod, data.getD (i * rest.prod + j) 0 ^ 2) - 1) ^ 2 := by
    intro i hi
    have hi2 : i < B := Finset.mem_range.mp hi
    have hle : i * rest.prod + rest.prod ≤ data.length := by
      rw [hdata]
      have : (i + 1) * rest.prod ≤ B * rest.prod := Nat.mul_le_mul_right _ (by omega)
      calc i * rest.prod + rest.prod = (i + 1) * rest.prod := by ring
        _ ≤ B * rest.prod := this
    rw [sum_map_slice data (fun x => x ^ 2) (i * rest.prod) rest.prod hle]
  simp only [List.length_map, List.length_range, List.map_map]
  congr 1
  congr 1
  have hbridge : ∀ f : ℕ → ℝ, ((List.range B).map f).sum = ∑ i ∈ Finset.range B, f i :=
    fun f => rfl
  rw [hbridge]
  refine Finset.sum_congr rfl ?_
  intro i hi
  exact hrows i hi

/-- Witness for C5: a gradient tensor of shape (2, 1) with rows of norm 1 has
penalty 10 · mean((1-1)², (1-1)²) = 0. -/
theorem gradient_penalty_witness :
    gradient_penalty { shape := [2, 1], data := [1, -1] } 10 = 0 := by
  have h := gradient_penalty_eq { shape := [2, 1], data := [1, -1] } 10 2 [1]
    rfl (by simp) (by norm_num)
  rw [h]
  unfold gradPenaltyFormula
  norm_num [Finset.sum_range_succ, List.getD, Real.sqrt_one]

/-- C6: with balanced_loss disabled (and weights absent, as the loop sets
`weights = None`; the plain 2-d discriminator), the generator-step loss equals
`recon_weight·recon_loss + perc_weight·perceptual_loss + commit_loss`, where
the perceptual loss is the LPIPS metric of the inputs and reconstructions
rescaled by x ↦ 2x−1 to [−1, 1]; once `global_step ≥ disc_start` it
additionally contains `disc_weight · (−mean(discriminator(fmap)))`. -/
theorem generator_step_loss_eq (args : TrainArgs) (global_step : ℕ)
    (lpips : Tensor ℝ → Tensor ℝ → List ℝ) (discriminator : Tensor ℝ → List ℝ)
    (pixel_values fmap : Tensor ℝ) (commit_loss : ℝ)
    (hbal : args.balanced_loss = false) (h3d : args.use_3d_disc = false) :
    generator_step_loss args global_step lpips discriminator pixel_values fmap commit_loss =
      args.recon_weight * get_recon_loss args pixel_values fmap +
      args.perc_weight * listMean (lpips
        { shape := pixel_values.shape, data := pixel_values.data.map (fun x => 2 * x - 1) }
        { shape := fmap.shape, data := fmap.data.map (fun x => 2 * x - 1) }) +
      commit_loss +
      (if args.disc_start ≤ global_step then
        args.disc_weight * (-listMean (discriminator fmap)) else 0) := by
  have hmap : (fun x : ℝ => x * 2 - 1) = (fun x : ℝ => 2 * x - 1) := by
    funext x
    ring
  simp only [generator_step_loss, Tensor.rescaleToPm1, hbal, h3d, Bool.false_eq_true,
    if_false, hmap]
  by_cases hd : args.disc_start ≤ global_step
  · rw [if_pos hd, if_pos hd]
    ring
  · rw [if_neg hd, if_neg hd]
    ring

/-- Witness for C6: concrete arguments, black boxes and tensors; the loss
evaluates to 1·1 + 2·0 + 5 + 3·0 = 6. -/
theorem generator_step_loss_witness :
    generator_step_loss sampleArgs 7 (fun a b => [a.data.sum + b.data.sum])
      (fun t => t.data) { shape := [1], data := [1] } { shape := [1], data := [0] } 5 = 6 := by
  have h := generator_step_loss_eq sampleArgs 7 (fun a b => [a.data.sum + b.data.sum])
    (fun t => t.data) { shape := [1], data := [1] } { shape := [1], data := [0] } 5 rfl rfl
  rw [h]
  norm_num [sampleArgs, get_recon_loss, listMean]

/-- Each FSQ coordinate index is below its level count. -/
theorem fsqCoordIndex_lt (L : ℕ) (hL : 0 < L) (x : ℚ) : fsqCoordIndex L x < L := by
  unfold fsqCoordIndex
  have := Nat.min_le_left (L - 1) (Int.toNat (pyRound x))
  omega

/-- The mixed-radix fold stays below the product of the levels seen so far. -/
theorem foldl_radix_lt (ps : List (ℕ × ℚ)) (hpos : ∀ p ∈ ps, 0 < p.1) (a P : ℕ) (ha : a < P) :
    ps.foldl (fun acc p => acc * p.1 + fsqCoordIndex p.1 p.2) a < P * (ps.map Prod.fst).prod := by
  induction ps generalizing a P with
  | nil => simpa using ha
  | cons p rest ih =>
    have hp : 0 < p.1 := hpos p (List.mem_cons_self _ _)
    have hidx : fsqCoordIndex p.1 p.2 < p.1 := fsqCoordIndex_lt p.1 hp p.2
    have hstep : a * p.1 + fsqCoordIndex p.1 p.2 < P * p.1 := by
      have h1 : a * p.1 + fsqCoordIndex p.1 p.2 < (a + 1) * p.1 := by
        have : (a + 1) * p.1 = a * p.1 + p.1 := by ring
        omega
      have h2 : (a + 1) * p.1 ≤ P * p.1 := Nat.mul_le_mul_right _ (by omega)
      omega
    have hrec := ih (fun q hq => hpos q (List.mem_cons_of_mem _ hq)) _ _ hstep
    simpa [List.map_cons, List.prod_cons, Nat.mul_assoc] using hrec

/-- The product of the levels actually consumed divides the full product. -/
theorem map_fst_zip_prod_dvd (L : List ℕ) (v : List ℚ) :
    ((List.zip L v).map Prod.fst).prod ∣ L.prod := by
  induction L generalizing v with
  | nil => simp
  | cons l rest ih =>
    cases v with
    | nil => simp
    | cons x xs =>
      simpa [List.zip_cons_cons] using mul_dvd_mul_left l (ih xs)

/-- Every FSQ code is below the codebook size. -/
theorem fsqVecIndex_lt (levels : List ℕ) (hpos : ∀ l ∈ levels, 0 < l) (v : List ℚ) :
    fsqVecIndex levels v < levels.prod := by
  have h1 : fsqVecIndex levels v < 1 * ((List.zip levels v).map Prod.fst).prod :=
    foldl_radix_lt (List.zip levels v)
      (fun p hp => hpos p.1 (List.of_mem_zip hp).1) 0 1 (by omega)
  have h2 : ((List.zip levels v).map Prod.fst).prod ∣ levels.prod :=
    map_fst_zip_prod_dvd levels v
  have hprodpos : 0 < levels.prod := List.prod_pos hpos
  have h3 := Nat.le_of_dvd hprodpos h2
  omega

/-- Insertion keeps the length. -/
theorem sortedInsert_length (a : ℕ) (l : List ℕ) :
    (sortedInsert a l).length = l.length + 1 := by
  induction l with
  | nil => rfl
  | cons b bs ih =>
    unfold sortedInsert
    by_cases hab : a ≤ b
    · rw [if_pos hab]
      rfl
    · rw [if_neg hab]
      simp [ih]

/-- Sorting keeps the length. -/
theorem sortNat_length (l : List ℕ) : (sortNat l).length = l.length := by
  induction l with
  | nil => rfl
  | cons a as ih =>
    unfold sortNat
    rw [sortedInsert_length, ih]
    rfl

/-- `torch.unique` counts the distinct values. -/
theorem torch_unique_length (l : List ℕ) : (torch_unique l).length = l.dedup.length := by
  unfold torch_unique
  exact sortNat_length _

/-- A non-empty tensor has at least one distinct value. -/
theorem torch_unique_length_pos (l : List ℕ) (h : l ≠ []) : 0 < (torch_unique l).length := by
  rw [torch_unique_length]
  have hd : l.dedup ≠ [] := by
    simp only [ne_eq, List.dedup_eq_nil]
    exact h
  exact List.length_pos.mpr hd

/-- At most `n` distinct values occur when all values are below `n`. -/
theorem torch_unique_length_le (l : List ℕ) (n : ℕ) (hall : ∀ x ∈ l, x < n) :
    (torch_unique l).length ≤ n := by
  rw [torch_unique_length]
  have hcard : l.toFinset.card = l.dedup.length := rfl
  rw [← hcard]
  have hsub : l.toFinset ⊆ Finset.range n := by
    intro x hx
    exact Finset.mem_range.mpr (hall x (List.mem_toFinset.mp hx))
  simpa using Finset.card_le_card hsub

/-- C7: constructing the model with an integer `vq_fsq_levels` sets the
codebook size `num_vq_embeddings` to the product of the per-dimension levels
returned by `get_fsq_levels`, and for every non-empty input the `code_util`
computed by `decode` (distinct indices divided by `num_vq_embeddings`)
satisfies `0 < code_util ≤ 1`. -/
theorem init_codebook_size_and_code_util (g : ℕ → List ℕ)
    (inC outC latC vqn dynn cl p : ℕ)
    (nets : DecodeNets) (segment_len : ℕ) (h d : List (List ℚ))
    (hpos : ∀ l ∈ g vqn, 0 < l) (hne : h ≠ []) :
    (CompressiveVQModelFSQ.init g inC outC latC vqn dynn cl p).num_vq_embeddings =
      (g vqn).prod ∧
    0 < (CompressiveVQModelFSQ.decode (CompressiveVQModelFSQ.init g inC outC latC vqn dynn cl p)
          nets segment_len h d).2.code_util ∧
    (CompressiveVQModelFSQ.decode (CompressiveVQModelFSQ.init g inC outC latC vqn dynn cl p)
          nets segment_len h d).2.code_util ≤ 1 := by
  have hprodpos : 0 < (g vqn).prod := List.prod_pos hpos
  have hnei : h.map (fsqVecIndex (g vqn)) ≠ [] := by
    simpa using hne
  have hlt : ∀ x ∈ h.map (fsqVecIndex (g vqn)), x < (g vqn).prod := by
    intro x hx
    obtain ⟨v, _, rfl⟩ := List.mem_map.mp hx
    exact fsqVecIndex_lt (g vqn) hpos v
  have hn1 : 0 < (torch_unique (h.map (fsqVecIndex (g vqn)))).length :=
    torch_unique_length_pos _ hnei
  have hn2 : (torch_unique (h.map (fsqVecIndex (g vqn)))).length ≤ (g vqn).prod :=
    torch_unique_length_le _ _ hlt
  refine ⟨rfl, ?_, ?_⟩
  · show (0 : ℚ) <
      ((torch_unique (h.map (fsqVecIndex (g vqn)))).length : ℚ) / (((g vqn).prod : ℕ) : ℚ)
    apply div_pos
    · exact_mod_cast hn1
    · exact_mod_cast hprodpos
  · show ((torch_unique (h.map (fsqVecIndex (g vqn)))).length : ℚ) / (((g vqn).prod : ℕ) : ℚ) ≤ 1
    rw [div_le_one (by exact_mod_cast hprodpos)]
    exact_mod_cast hn2

/-- Witness for C7 at a concrete model (levels [8, 6, 5], codebook 240) and the
single-position latent (0, 0, 0). -/
theorem init_codebook_witness :
    (CompressiveVQModelFSQ.init (fun _ => [8, 6, 5]) 3 3 3 12 12 1 4).num_vq_embeddings =
      ((fun _ : ℕ => [8, 6, 5]) 12).prod ∧
    0 < (CompressiveVQModelFSQ.decode (CompressiveVQModelFSQ.init (fun _ => [8, 6, 5]) 3 3 3 12 12 1 4)
          sampleDecodeNets 1 [[0, 0, 0]] [[0, 0, 0]]).2.code_util ∧
    (CompressiveVQModelFSQ.decode (CompressiveVQModelFSQ.init (fun _ => [8, 6, 5]) 3 3 3 12 12 1 4)
          sampleDecodeNets 1 [[0, 0, 0]] [[0, 0, 0]]).2.code_util ≤ 1 :=
  init_codebook_size_and_code_util (fun _ => [8, 6, 5]) 3 3 3 12 12 1 4
    sampleDecodeNets 1 [[0, 0, 0]] [[0, 0, 0]] (by decide) (by decide)

/-- C10 counterexample: the counts 0, 1 sum to the positive total 1, yet the
run `update(1, 0); update(1, 1)` raises ZeroDivisionError at the first call
(count is still 0 when `avg = sum / count` executes), so the claimed invariant
cannot hold for this sequence. -/
theorem average_meter_counterexample :
    (([((1 : ℚ), (0 : ℕ)), ((1 : ℚ), (1 : ℕ))].map (fun u => u.2)).sum = 1) ∧
    AverageMeter.runUpdates (AverageMeter.mk 0 0 0 0).reset
      [((1 : ℚ), (0 : ℕ)), ((1 : ℚ), (1 : ℕ))] = none := by
  constructor
  · decide
  · simp [AverageMeter.runUpdates, AverageMeter.update, AverageMeter.reset]


/-! ## Shared shape-computation lemmas for the tokenize/detokenize theorems -/

theorem castList_filter_lt (l : List ℕ) :
    (l.map (fun (n : ℕ) => (n : ℤ))).filter (fun x => x < 0) = [] := by
  rw [List.filter_eq_nil_iff]
  intro a ha
  obtain ⟨x, _, rfl⟩ := List.mem_map.mp ha
  simp

theorem castList_filter_nonneg (l : List ℕ) :
    (l.map (fun (n : ℕ) => (n : ℤ))).filter (fun x => 0 ≤ x) =
      l.map (fun (n : ℕ) => (n : ℤ)) := by
  rw [List.filter_eq_self]
  intro a ha
  obtain ⟨x, _, rfl⟩ := List.mem_map.mp ha
  simp

theorem castList_map_toNat (l : List ℕ) :
    (l.map (fun (n : ℕ) => (n : ℤ))).map Int.toNat = l := by
  rw [List.map_map]
  have h : (Int.toNat ∘ fun (n : ℕ) => (n : ℤ)) = id := by
    funext x
    simp
  rw [h, List.map_id]

theorem castList_map_resolve (l : List ℕ) (q : ℕ) :
    (l.map (fun (n : ℕ) => (n : ℤ))).map (fun x => if x < 0 then q else Int.toNat x) = l := by
  rw [List.map_map]
  have h : ((fun x : ℤ => if x < 0 then q else Int.toNat x) ∘ fun (n : ℕ) => (n : ℤ)) = id := by
    funext x
    simp
  rw [h, List.map_id]

theorem inferReshape_cast (numel : ℕ) (tgt : List ℕ) (h : tgt.prod = numel) :
    inferReshape numel (tgt.map (fun (n : ℕ) => (n : ℤ))) = some tgt := by
  unfold inferReshape
  rw [castList_filter_lt]
  have t3c : List.map (Int.toNat ∘ fun (n : ℕ) => (n : ℤ)) tgt = tgt := by
    rw [← List.map_map]
    exact castList_map_toNat tgt
  simp [t3c, h]

theorem inferReshape_neg1 (numel : ℕ) (pre post : List ℕ)
    (hpos : 0 < pre.prod * post.prod) (hdvd : pre.prod * post.prod ∣ numel) :
    inferReshape numel
      (pre.map (fun (n : ℕ) => (n : ℤ)) ++ (-1) :: post.map (fun (n : ℕ) => (n : ℤ))) =
      some (pre ++ numel / (pre.prod * post.prod) :: post) := by
  unfold inferReshape
  have h1 : ((pre.map (fun (n : ℕ) => (n : ℤ)) ++
      (-1) :: post.map (fun (n : ℕ) => (n : ℤ))).filter (fun x => x < 0)) = [-1] := by
    rw [List.filter_append, castList_filter_lt, List.filter_cons]
    norm_num [castList_filter_lt]
  have h2 : ((pre.map (fun (n : ℕ) => (n : ℤ)) ++
      (-1) :: post.map (fun (n : ℕ) => (n : ℤ))).filter (fun x => 0 ≤ x)) =
      pre.map (fun (n : ℕ) => (n : ℤ)) ++ post.map (fun (n : ℕ) => (n : ℤ)) := by
    rw [List.filter_append, castList_filter_nonneg, List.filter_cons]
    norm_num [castList_filter_nonneg]
  simp only [h1, h2]
  have hne : ¬ (([-1] : List ℤ) = []) := by simp
  rw [if_neg hne]
  simp only [List.map_append, castList_map_toNat, List.prod_append, reduceIte]
  rw [if_pos ⟨hpos, hdvd⟩]
  simp only [List.map_cons, castList_map_resolve]
  norm_num

theorem reshapeTo_cast_eq (s : Shape) (tgt : List ℕ) (h : tgt.prod = s.prod) :
    reshapeTo s (tgt.map (fun (n : ℕ) => (n : ℤ))) = some tgt :=
  inferReshape_cast s.prod tgt h

theorem reshapeTo_neg1_eq (s : Shape) (pre post : List ℕ) (q : ℕ)
    (hpos : 0 < pre.prod * post.prod)
    (heq : s.prod = (pre.prod * post.prod) * q) :
    reshapeTo s
      (pre.map (fun (n : ℕ) => (n : ℤ)) ++ (-1) :: post.map (fun (n : ℕ) => (n : ℤ))) =
      some (pre ++ q :: post) := by
  show inferReshape s.prod _ = _
  rw [inferReshape_neg1 s.prod pre post hpos ⟨q, heq⟩]
  have hq : s.prod / (pre.prod * post.prod) = q := by
    rw [heq]
    exact Nat.mul_div_right q hpos
  rw [hq]

theorem mapM_eq_map_of {α β : Type} (l : List α) (f : α → Option β) (g : α → β)
    (h : ∀ a ∈ l, f a = some (g a)) : l.mapM f = some (l.map g) := by
  rw [← List.mapM'_eq_mapM]
  induction l with
  | nil => rfl
  | cons a as ih =>
    simp [List.mapM', h a (List.mem_cons_self _ _),
      ih (fun x hx => h x (List.mem_cons_of_mem _ hx))]

theorem sub_div_succ (p n : ℕ) (hp : 0 < p) (hle : p ≤ n) :
    (n - p) / p + 1 = n / p := by
  have h1 : n = (n - p) + p := (Nat.sub_add_cancel hle).symm
  calc (n - p) / p + 1 = ((n - p) + p) / p := (Nat.add_div_right _ hp).symm
    _ = n / p := by rw [← h1]

theorem feat_broadcast_ctx_eq (ctx fl Bc N c h w : ℕ)
    (hN : N = Bc * ctx)
    (hpos : 0 < ctx * (c * (h * (w * 1)))) :
    feat_broadcast_ctx ctx fl Bc (N :: c :: h :: w :: []) =
      some ((Bc * fl) :: ctx :: c :: h :: w :: []) := by
  have hl3 : lastDims 3 (N :: c :: h :: w :: []) = c :: h :: w :: [] := rfl
  have e1 : reshapeTo (N :: c :: h :: w :: [])
      ((Bc : ℤ) :: (ctx : ℤ) :: (c :: h :: w :: []).map (fun (n : ℕ) => (n : ℤ))) =
      some (Bc :: ctx :: c :: h :: w :: []) := by
    have base := reshapeTo_cast_eq (N :: c :: h :: w :: []) (Bc :: ctx :: c :: h :: w :: [])
      (by subst hN; simp only [List.prod_cons, List.prod_nil]; ring)
    simpa using base
  have e2 : unsqueezeAt1 (Bc :: ctx :: c :: h :: w :: []) =
      some (Bc :: 1 :: ctx :: c :: h :: w :: []) := rfl
  have e3 : torchRepeat (1 :: fl :: 1 :: 1 :: 1 :: 1 :: []) (Bc :: 1 :: ctx :: c :: h :: w :: []) =
      some (Bc :: fl :: ctx :: c :: h :: w :: []) := by
    simp [torchRepeat]
  have e4 : reshapeTo (Bc :: fl :: ctx :: c :: h :: w :: [])
      ((-1) :: (ctx : ℤ) :: (c :: h :: w :: []).map (fun (n : ℕ) => (n : ℤ))) =
      some ((Bc * fl) :: ctx :: c :: h :: w :: []) := by
    have base := reshapeTo_neg1_eq (Bc :: fl :: ctx :: c :: h :: w :: [])
      [] (ctx :: c :: h :: w :: []) (Bc * fl)
      (by simpa using hpos)
      (by simp only [List.prod_cons, List.prod_nil]; ring)
    simpa using base
  simp only [feat_broadcast_ctx, hl3, e1, obind_some, e2, e3, e4]

theorem feat_broadcast_plain_eq (fl N c h w : ℕ)
    (hpos : 0 < c * (h * (w * 1))) :
    feat_broadcast_plain fl (N :: c :: h :: w :: []) =
      some ((N * fl) :: c :: h :: w :: []) := by
  have hl3 : lastDims 3 (N :: c :: h :: w :: []) = c :: h :: w :: [] := rfl
  have e2 : unsqueezeAt1 (N :: c :: h :: w :: []) =
      some (N :: 1 :: c :: h :: w :: []) := rfl
  have e3 : torchRepeat (1 :: fl :: 1 :: 1 :: 1 :: []) (N :: 1 :: c :: h :: w :: []) =
      some (N :: fl :: c :: h :: w :: []) := by
    simp [torchRepeat]
  have e4 : reshapeTo (N :: fl :: c :: h :: w :: [])
      ((-1) :: (c :: h :: w :: []).map (fun (n : ℕ) => (n : ℤ))) =
      some ((N * fl) :: c :: h :: w :: []) := by
    have base := reshapeTo_neg1_eq (N :: fl :: c :: h :: w :: [])
      [] (c :: h :: w :: []) (N * fl)
      (by simpa using hpos)
      (by simp only [List.prod_cons, List.prod_nil]; ring)
    simpa using base
  simp only [feat_broadcast_plain, hl3, e2, obind_some, e3, e4]


theorem linearLast3 (inF outF a b c : ℕ) (h : c = inF) :
    linearLast inF outF (a :: b :: c :: []) = some (a :: b :: outF :: []) := by
  unfold linearLast
  show (if c = inF then some ((a :: b :: c :: []).dropLast ++ [outF]) else none) = _
  rw [if_pos h]
  rfl


theorem getD_one (a b : ℕ) (l : List ℕ) : List.getD (a :: b :: l) 1 0 = b := rfl

theorem getD_two (a b c : ℕ) (l : List ℕ) : List.getD (a :: b :: c :: l) 2 0 = c := rfl


theorem encoderShape_eq (cfg : CompressiveVQConfig) (nets : NetShapes) (n c hh ww : ℕ)
    (hc : c = cfg.in_channels) :
    encoderShape cfg nets (n :: c :: hh :: ww :: []) =
      some ((n :: cfg.latent_channels :: nets.encH hh :: nets.encW ww :: []),
            (nets.encFeats hh ww).map (fun f => n :: f.1 :: f.2.1 :: f.2.2 :: [])) := by
  unfold encoderShape
  show (if c = cfg.in_channels then _ else none) = _
  rw [if_pos hc]

theorem condEncoderShape_eq (cfg : CompressiveVQConfig) (nets : NetShapes) (n c hh ww : ℕ)
    (feats : List Shape) (hc : c = cfg.in_channels)
    (hall : feats.all (fun f => f.headD 0 = n) = true) :
    condEncoderShape cfg nets (n :: c :: hh :: ww :: []) feats =
      some (n :: cfg.latent_channels :: nets.condEncH hh :: nets.condEncW ww :: []) := by
  unfold condEncoderShape
  show (if c = cfg.in_channels ∧ feats.all (fun f => f.headD 0 = n) then _ else none) = _
  rw [if_pos ⟨hc, hall⟩]

theorem decoderShape_eq (cfg : CompressiveVQConfig) (nets : NetShapes) (n c hh ww : ℕ)
    (hc : c = cfg.latent_channels) :
    decoderShape cfg nets (n :: c :: hh :: ww :: []) =
      some ((n :: cfg.out_channels :: nets.decH hh :: nets.decW ww :: []),
            (nets.decFeats hh ww).map (fun f => n :: f.1 :: f.2.1 :: f.2.2 :: [])) := by
  unfold decoderShape
  show (if c = cfg.latent_channels then _ else none) = _
  rw [if_pos hc]

theorem condDecoderShape_eq (cfg : CompressiveVQConfig) (nets : NetShapes) (n c hh ww : ℕ)
    (feats : List Shape) (hc : c = cfg.latent_channels)
    (hall : feats.all (fun f => f.headD 0 = n) = true) :
    condDecoderShape cfg nets (n :: c :: hh :: ww :: []) feats =
      some (n :: cfg.out_channels :: nets.condDecH hh :: nets.condDecW ww :: []) := by
  unfold condDecoderShape
  show (if c = cfg.latent_channels ∧ feats.all (fun f => f.headD 0 = n) then _ else none) = _
  rw [if_pos ⟨hc, hall⟩]

theorem conv2d1x1_eq (cin cout n c hh ww : ℕ) (hc : c = cin) :
    conv2d1x1 cin cout (n :: c :: hh :: ww :: []) = some (n :: cout :: hh :: ww :: []) := by
  unfold conv2d1x1
  show (if c = cin then _ else none) = _
  rw [if_pos hc]

theorem fsqInfoShape_eq (levels : List ℕ) (n d : ℕ) (rest : List ℕ) (hd : d = levels.length) :
    fsqInfoShape levels (n :: d :: rest) = some (n :: rest) := by
  unfold fsqInfoShape
  show (if d = levels.length then _ else none) = _
  rw [if_pos hd]


theorem catDim1_eq (a b d : ℕ) (r1 r2 : List ℕ) (h : r1 = r2) :
    catDim1 (a :: b :: r1) (a :: d :: r2) = some (a :: (b + d) :: r1) := by
  unfold catDim1
  show (if a = a ∧ r1 = r2 then _ else none) = _
  rw [if_pos ⟨rfl, h⟩]

/-- C2 (amended): for every pixel_values tensor of shape [B, T, C, H, W] with
positive dimensions, C equal to the configured in_channels, T strictly greater
than the configured context_length (T = context_length crashes: the dynamics
path reshapes a zero-frame tensor with inferred dimension -1), patch_size
positive and no larger than the conditional-encoder output resolution, and
positive encoder feature dimensions, CompressiveVQModelFSQ.tokenize encodes the
first context_length frames with the context encoder and the remaining
T - context_length frames with the dynamics encoder conditioned on the context
features, quantizes both paths, and returns two integer index tensors of shapes
[B, context_length, encH*encW] and [B, T - context_length,
(condEncH/patch)*(condEncW/patch)]. -/
theorem tokenize_shapes (cfg : CompressiveVQConfig) (nets : NetShapes)
    (B T C H W : ℕ)
    (hB : 0 < B) (hcl : 0 < cfg.context_length) (hT : cfg.context_length < T)
    (hC : C = cfg.in_channels) (hC0 : 0 < C) (hH0 : 0 < H) (hW0 : 0 < W)
    (hp : 0 < cfg.patch_size)
    (hph : cfg.patch_size ≤ nets.condEncH H) (hpw : cfg.patch_size ≤ nets.condEncW W)
    (hfeats : ∀ f ∈ nets.encFeats H W, 0 < f.1 ∧ 0 < f.2.1 ∧ 0 < f.2.2) :
    CompressiveVQModelFSQ.tokenize cfg nets (B :: T :: C :: H :: W :: []) cfg.context_length =
      .ok ((B :: cfg.context_length :: (nets.encH H * nets.encW W) :: []),
           (B :: (T - cfg.context_length) ::
             ((nets.condEncH H / cfg.patch_size) * (nets.condEncW W / cfg.patch_size)) :: [])) := by
  have hmin : min cfg.context_length T = cfg.context_length :=
    Nat.min_eq_left (Nat.le_of_lt hT)
  have hfl : 0 < T - cfg.context_length := by omega
  have hKpos : 0 < C * (H * (W * 1)) :=
    Nat.mul_pos hC0 (Nat.mul_pos hH0 (Nat.mul_pos hW0 Nat.one_pos))
  have hL1 : 0 < nets.condEncH H / cfg.patch_size := Nat.div_pos hph hp
  have hL2 : 0 < nets.condEncW W / cfg.patch_size := Nat.div_pos hpw hp
  have e1 : reshapeTo (B :: min cfg.context_length T :: C :: H :: W :: [])
      [-1, (C : ℤ), (H : ℤ), (W : ℤ)] =
      some ((B * cfg.context_length) :: C :: H :: W :: []) := by
    have base := reshapeTo_neg1_eq (B :: min cfg.context_length T :: C :: H :: W :: [])
      [] (C :: H :: W :: []) (B * cfg.context_length)
      (by simpa using hKpos)
      (by rw [hmin]; simp only [List.prod_cons, List.prod_nil]; ring)
    simpa using base
  have e2 : reshapeTo (B :: (T - cfg.context_length) :: C :: H :: W :: [])
      [-1, (C : ℤ), (H : ℤ), (W : ℤ)] =
      some ((B * (T - cfg.context_length)) :: C :: H :: W :: []) := by
    have base := reshapeTo_neg1_eq (B :: (T - cfg.context_length) :: C :: H :: W :: [])
      [] (C :: H :: W :: []) (B * (T - cfg.context_length))
      (by simpa using hKpos)
      (by simp only [List.prod_cons, List.prod_nil]; ring)
    simpa using base
  have e3 : encoderShape cfg nets ((B * cfg.context_length) :: C :: H :: W :: []) =
      some (((B * cfg.context_length) :: cfg.latent_channels ::
              nets.encH H :: nets.encW W :: []),
            (nets.encFeats H W).map
              (fun f => (B * cfg.context_length) :: f.1 :: f.2.1 :: f.2.2 :: [])) :=
    encoderShape_eq cfg nets _ _ _ _ hC
  have e6 : conv2d1x1 cfg.latent_channels cfg.vq_fsq_levels.length
      ((B * cfg.context_length) :: cfg.latent_channels :: nets.encH H :: nets.encW W :: []) =
      some ((B * cfg.context_length) :: cfg.vq_fsq_levels.length ::
        nets.encH H :: nets.encW W :: []) :=
    conv2d1x1_eq _ _ _ _ _ _ rfl
  have e8 : permute0231 ((B * (T - cfg.context_length)) :: cfg.latent_channels ::
      nets.condEncH H :: nets.condEncW W :: []) =
      some ((B * (T - cfg.context_length)) :: nets.condEncH H :: nets.condEncW W ::
        cfg.latent_channels :: []) := rfl
  have e9 : unfoldDim 1 cfg.patch_size cfg.patch_size
      ((B * (T - cfg.context_length)) :: nets.condEncH H :: nets.condEncW W ::
        cfg.latent_channels :: []) =
      some ((B * (T - cfg.context_length)) :: (nets.condEncH H / cfg.patch_size) ::
        nets.condEncW W :: cfg.latent_channels :: cfg.patch_size :: []) := by
    simp only [unfoldDim, List.get?]
    rw [if_pos ⟨hph, hp⟩]
    simp [List.set, sub_div_succ cfg.patch_size (nets.condEncH H) hp hph]
  have e10 : unfoldDim 2 cfg.patch_size cfg.patch_size
      ((B * (T - cfg.context_length)) :: (nets.condEncH H / cfg.patch_size) ::
        nets.condEncW W :: cfg.latent_channels :: cfg.patch_size :: []) =
      some ((B * (T - cfg.context_length)) :: (nets.condEncH H / cfg.patch_size) ::
        (nets.condEncW W / cfg.patch_size) :: cfg.latent_channels ::
        cfg.patch_size :: cfg.patch_size :: []) := by
    simp only [unfoldDim, List.get?]
    rw [if_pos ⟨hpw, hp⟩]
    simp [List.set, sub_div_succ cfg.patch_size (nets.condEncW W) hp hpw]
  have e11 : permute012453 ((B * (T - cfg.context_length)) ::
      (nets.condEncH H / cfg.patch_size) :: (nets.condEncW W / cfg.patch_size) ::
      cfg.latent_channels :: cfg.patch_size :: cfg.patch_size :: []) =
      some ((B * (T - cfg.context_length)) :: (nets.condEncH H / cfg.patch_size) ::
        (nets.condEncW W / cfg.patch_size) :: cfg.patch_size :: cfg.patch_size ::
        cfg.latent_channels :: []) := rfl
  have e12 : reshapeTo ((B * (T - cfg.context_length)) ::
      (nets.condEncH H / cfg.patch_size) :: (nets.condEncW W / cfg.patch_size) ::
      cfg.patch_size :: cfg.patch_size :: cfg.latent_channels :: [])
      (((B * (T - cfg.context_length) : ℕ) : ℤ) ::
        ((nets.condEncH H / cfg.patch_size * (nets.condEncW W / cfg.patch_size) : ℕ) : ℤ) ::
        [(-1 : ℤ)]) =
      some ((B * (T - cfg.context_length)) ::
        (nets.condEncH H / cfg.patch_size * (nets.condEncW W / cfg.patch_size)) ::
        (cfg.patch_size * cfg.patch_size * cfg.latent_channels) :: []) := by
    have base := reshapeTo_neg1_eq ((B * (T - cfg.context_length)) ::
        (nets.condEncH H / cfg.patch_size) :: (nets.condEncW W / cfg.patch_size) ::
        cfg.patch_size :: cfg.patch_size :: cfg.latent_channels :: [])
      ((B * (T - cfg.context_length)) ::
        (nets.condEncH H / cfg.patch_size * (nets.condEncW W / cfg.patch_size)) :: []) []
      (cfg.patch_size * cfg.patch_size * cfg.latent_channels)
      (by
        simp only [List.prod_cons, List.prod_nil]
        have := Nat.mul_pos hB hfl
        have := Nat.mul_pos hL1 hL2
        positivity)
      (by simp only [List.prod_cons, List.prod_nil]; ring)
    simpa using base
  have e13 : linearLast (cfg.latent_channels * cfg.patch_size * cfg.patch_size)
      cfg.dyn_fsq_levels.length
      ((B * (T - cfg.context_length)) ::
        (nets.condEncH H / cfg.patch_size * (nets.condEncW W / cfg.patch_size)) ::
        (cfg.patch_size * cfg.patch_size * cfg.latent_channels) :: []) =
      some ((B * (T - cfg.context_length)) ::
        (nets.condEncH H / cfg.patch_size * (nets.condEncW W / cfg.patch_size)) ::
        cfg.dyn_fsq_levels.length :: []) := by
    exact linearLast3 _ _ _ _ _ (by ring)
  have e14 : fsqInfoShape cfg.vq_fsq_levels
      ((B * cfg.context_length) :: cfg.vq_fsq_levels.length ::
        nets.encH H :: nets.encW W :: []) =
      some ((B * cfg.context_length) :: nets.encH H :: nets.encW W :: []) :=
    fsqInfoShape_eq _ _ _ _ rfl
  have e15 : transposeLast2 ((B * (T - cfg.context_length)) ::
      (nets.condEncH H / cfg.patch_size * (nets.condEncW W / cfg.patch_size)) ::
      cfg.dyn_fsq_levels.length :: []) =
      some ((B * (T - cfg.context_length)) :: cfg.dyn_fsq_levels.length ::
        (nets.condEncH H / cfg.patch_size * (nets.condEncW W / cfg.patch_size)) :: []) := rfl
  have e16 : fsqInfoShape cfg.dyn_fsq_levels
      ((B * (T - cfg.context_length)) :: cfg.dyn_fsq_levels.length ::
        (nets.condEncH H / cfg.patch_size * (nets.condEncW W / cfg.patch_size)) :: 1 :: []) =
      some ((B * (T - cfg.context_length)) ::
        (nets.condEncH H / cfg.patch_size * (nets.condEncW W / cfg.patch_size)) :: 1 :: []) :=
    fsqInfoShape_eq _ _ _ _ rfl
  have e17 : reshapeTo ((B * cfg.context_length) :: nets.encH H :: nets.encW W :: [])
      ((B : ℤ) :: (cfg.context_length : ℤ) :: [(-1 : ℤ)]) =
      some (B :: cfg.context_length :: (nets.encH H * nets.encW W) :: []) := by
    have base := reshapeTo_neg1_eq ((B * cfg.context_length) :: nets.encH H :: nets.encW W :: [])
      (B :: cfg.context_length :: []) [] (nets.encH H * nets.encW W)
      (by simp only [List.prod_cons, List.prod_nil]; positivity)
      (by simp only [List.prod_cons, List.prod_nil]; ring)
    simpa using base
  have e18 : reshapeTo ((B * (T - cfg.context_length)) ::
      (nets.condEncH H / cfg.patch_size * (nets.condEncW W / cfg.patch_size)) :: 1 :: [])
      ((B : ℤ) :: ((T - cfg.context_length : ℕ) : ℤ) :: [(-1 : ℤ)]) =
      some (B :: (T - cfg.context_length) ::
        (nets.condEncH H / cfg.patch_size * (nets.condEncW W / cfg.patch_size)) :: []) := by
    have base := reshapeTo_neg1_eq ((B * (T - cfg.context_length)) ::
        (nets.condEncH H / cfg.patch_size * (nets.condEncW W / cfg.patch_size)) :: 1 :: [])
      (B :: (T - cfg.context_length) :: []) []
      (nets.condEncH H / cfg.patch_size * (nets.condEncW W / cfg.patch_size))
      (by simp only [List.prod_cons, List.prod_nil]; positivity)
      (by simp only [List.prod_cons, List.prod_nil]; ring)
    simpa using base
  have hbody : tokenize_body cfg nets (B :: T :: C :: H :: W :: []) cfg.context_length =
      some ((B :: cfg.context_length :: (nets.encH H * nets.encW W) :: []),
            (B :: (T - cfg.context_length) ::
              ((nets.condEncH H / cfg.patch_size) * (nets.condEncW W / cfg.patch_size)) :: [])) := by
    by_cases hcase : 1 < cfg.context_length
    · have eB : pyFloorDiv (B * (T - cfg.context_length)) (T - cfg.context_length) =
          some B := by
        simp only [pyFloorDiv]
        rw [if_neg (by omega)]
        rw [Nat.mul_div_left B hfl]
      have e5 : ((nets.encFeats H W).map
          (fun f => (B * cfg.context_length) :: f.1 :: f.2.1 :: f.2.2 :: [])).mapM
          (feat_broadcast_ctx cfg.context_length (T - cfg.context_length) B) =
          some (((nets.encFeats H W).map
            (fun f => (B * cfg.context_length) :: f.1 :: f.2.1 :: f.2.2 :: [])).map
            (fun f4 => (B * (T - cfg.context_length)) :: cfg.context_length :: f4.tail)) := by
        apply mapM_eq_map_of
        intro f4 hf4
        obtain ⟨tr, htr, rfl⟩ := List.mem_map.mp hf4
        obtain ⟨hc1, hc2, hc3⟩ := hfeats tr htr
        have step := feat_broadcast_ctx_eq cfg.context_length (T - cfg.context_length) B
          (B * cfg.context_length) tr.1 tr.2.1 tr.2.2 rfl
          (Nat.mul_pos hcl (Nat.mul_pos hc1 (Nat.mul_pos hc2 (Nat.mul_pos hc3 Nat.one_pos))))
        simpa using step
      have e7 : condEncoderShape cfg nets
          ((B * (T - cfg.context_length)) :: C :: H :: W :: [])
          (((nets.encFeats H W).map
            (fun f => (B * cfg.context_length) :: f.1 :: f.2.1 :: f.2.2 :: [])).map
            (fun f4 => (B * (T - cfg.context_length)) :: cfg.context_length :: f4.tail)) =
          some ((B * (T - cfg.context_length)) :: cfg.latent_channels ::
            nets.condEncH H :: nets.condEncW W :: []) := by
        have hall : ((((nets.encFeats H W).map
            (fun f => (B * cfg.context_length) :: f.1 :: f.2.1 :: f.2.2 :: [])).map
            (fun f4 => (B * (T - cfg.context_length)) :: cfg.context_length :: f4.tail)).all
            (fun f => f.headD 0 = B * (T - cfg.context_length))) = true := by
          simp only [List.map_map]
          rw [List.all_eq_true]
          intro f hf
          obtain ⟨tr, _, rfl⟩ := List.mem_map.mp hf
          simp
        exact condEncoderShape_eq cfg nets _ _ _ _ _ hC hall
      simp only [tokenize_body, e1, obind_some, e2, obind_some, e3, obind_some,
        if_pos hcase, eB, obind_some, e5, obind_some, e6, obind_some, e7, obind_some,
        e8, obind_some, e9, obind_some, e10, obind_some, e11, obind_some,
        List.headD_cons, getD_one, getD_two,
        e12, obind_some, e13, obind_some, e14, obind_some, e15, obind_some,
        List.cons_append, List.nil_append,
        e16, obind_some, e17, obind_some, e18, obind_some]
    · have hctx1 : cfg.context_length = 1 := by omega
      have e5 : ((nets.encFeats H W).map
          (fun f => (B * cfg.context_length) :: f.1 :: f.2.1 :: f.2.2 :: [])).mapM
          (feat_broadcast_plain (T - cfg.context_length)) =
          some (((nets.encFeats H W).map
            (fun f => (B * cfg.context_length) :: f.1 :: f.2.1 :: f.2.2 :: [])).map
            (fun f4 => (B * cfg.context_length * (T - cfg.context_length)) :: f4.tail)) := by
        apply mapM_eq_map_of
        intro f4 hf4
        obtain ⟨tr, htr, rfl⟩ := List.mem_map.mp hf4
        obtain ⟨hc1, hc2, hc3⟩ := hfeats tr htr
        have step := feat_broadcast_plain_eq (T - cfg.context_length)
          (B * cfg.context_length) tr.1 tr.2.1 tr.2.2
          (Nat.mul_pos hc1 (Nat.mul_pos hc2 (Nat.mul_pos hc3 Nat.one_pos)))
        simpa using step
      have e7 : condEncoderShape cfg nets
          ((B * (T - cfg.context_length)) :: C :: H :: W :: [])
          (((nets.encFeats H W).map
            (fun f => (B * cfg.context_length) :: f.1 :: f.2.1 :: f.2.2 :: [])).map
            (fun f4 => (B * cfg.context_length * (T - cfg.context_length)) :: f4.tail)) =
          some ((B * (T - cfg.context_length)) :: cfg.latent_channels ::
            nets.condEncH H :: nets.condEncW W :: []) := by
        have hall : ((((nets.encFeats H W).map
            (fun f => (B * cfg.context_length) :: f.1 :: f.2.1 :: f.2.2 :: [])).map
            (fun f4 => (B * cfg.context_length * (T - cfg.context_length)) :: f4.tail)).all
            (fun f => f.headD 0 = B * (T - cfg.context_length))) = true := by
          simp only [List.map_map]
          rw [List.all_eq_true]
          intro f hf
          obtain ⟨tr, _, rfl⟩ := List.mem_map.mp hf
          simp [hctx1]
        exact condEncoderShape_eq cfg nets _ _ _ _ _ hC hall
      simp only [tokenize_body, e1, obind_some, e2, obind_some, e3, obind_some,
        if_neg hcase, obind_some, e5, obind_some, e6, obind_some, e7, obind_some,
        e8, obind_some, e9, obind_some, e10, obind_some, e11, obind_some,
        List.headD_cons, getD_one, getD_two,
        e12, obind_some, e13, obind_some, e14, obind_some, e15, obind_some,
        List.cons_append, List.nil_append,
        e16, obind_some, e17, obind_some, e18, obind_some]
  unfold CompressiveVQModelFSQ.tokenize
  rw [if_pos rfl, hbody]
/-- C3 (amended): for index tensors indices_c of shape [B, context_length, 1280]
and indices_d of shape [B, future_length, 80] (the hard-coded 32*40 context and
8*10 dynamics grids of the source: other last dimensions crash in the hard-coded
reshapes), with B, future_length, context_length positive, patch_size = 4 (the
value the hard-coded 8 = 32/patch and 10 = 40/patch require), a nonempty
dynamics level list, positive decoder feature dimensions, and the conditional
decoder producing the same output resolution as the plain decoder,
CompressiveVQModelFSQ.detokenize maps the indices back to quantized codes,
decodes the context path with the plain decoder and the future frames with the
conditional decoder, and returns a tensor whose frame dimension has length
context_length + future_length, context frames first. -/
theorem detokenize_shapes (cfg : CompressiveVQConfig) (nets : NetShapes)
    (B fl : ℕ)
    (hB : 0 < B) (hcl : 0 < cfg.context_length) (hfl : 0 < fl)
    (hp4 : cfg.patch_size = 4)
    (hdynlen : 0 < cfg.dyn_fsq_levels.length)
    (hdfeats : ∀ f ∈ nets.decFeats 32 40, 0 < f.1 ∧ 0 < f.2.1 ∧ 0 < f.2.2)
    (hmH : nets.decH 32 = nets.condDecH 32) (hmW : nets.decW 40 = nets.condDecW 40) :
    CompressiveVQModelFSQ.detokenize cfg nets
      (B :: cfg.context_length :: 1280 :: []) (B :: fl :: 80 :: []) cfg.context_length =
      .ok (B :: (cfg.context_length + fl) :: cfg.out_channels ::
        nets.decH 32 :: nets.decW 40 :: []) := by
  have e1 : (B :: fl :: 80 :: []).get? 1 = some fl := rfl
  have e2 : (B :: cfg.context_length :: 1280 :: []).get? 0 = some B := rfl
  have e3 : reshapeTo (B :: cfg.context_length :: 1280 :: []) ((B : ℤ) :: [(-1 : ℤ)]) =
      some (B :: cfg.context_length * 1280 :: []) := by
    have base := reshapeTo_neg1_eq (B :: cfg.context_length :: 1280 :: [])
      (B :: []) [] (cfg.context_length * 1280)
      (by simp only [List.prod_cons, List.prod_nil]; omega)
      (by simp only [List.prod_cons, List.prod_nil]; ring)
    simpa using base
  have e4 : reshapeTo (B :: fl :: 80 :: []) ((B : ℤ) :: [(-1 : ℤ)]) =
      some (B :: fl * 80 :: []) := by
    have base := reshapeTo_neg1_eq (B :: fl :: 80 :: [])
      (B :: []) [] (fl * 80)
      (by simp only [List.prod_cons, List.prod_nil]; omega)
      (by simp only [List.prod_cons, List.prod_nil]; ring)
    simpa using base
  have e5 : indicesToCodesShape cfg.vq_fsq_levels (B :: cfg.context_length * 1280 :: []) =
      some (B :: cfg.context_length * 1280 :: cfg.vq_fsq_levels.length :: []) := rfl
  have e6 : reshapeTo (B :: cfg.context_length * 1280 :: cfg.vq_fsq_levels.length :: [])
      (((B * cfg.context_length : ℕ) : ℤ) :: (32 : ℤ) :: (40 : ℤ) ::
        [(cfg.vq_fsq_levels.length : ℤ)]) =
      some ((B * cfg.context_length) :: 32 :: 40 :: cfg.vq_fsq_levels.length :: []) := by
    have base := reshapeTo_cast_eq (B :: cfg.context_length * 1280 :: cfg.vq_fsq_levels.length :: [])
      ((B * cfg.context_length) :: 32 :: 40 :: cfg.vq_fsq_levels.length :: [])
      (by simp only [List.prod_cons, List.prod_nil]; ring)
    simpa using base
  have e7 : permute0312 ((B * cfg.context_length) :: 32 :: 40 :: cfg.vq_fsq_levels.length :: []) =
      some ((B * cfg.context_length) :: cfg.vq_fsq_levels.length :: 32 :: 40 :: []) := rfl
  have e8 : conv2d1x1 cfg.vq_fsq_levels.length cfg.latent_channels
      ((B * cfg.context_length) :: cfg.vq_fsq_levels.length :: 32 :: 40 :: []) =
      some ((B * cfg.context_length) :: cfg.latent_channels :: 32 :: 40 :: []) :=
    conv2d1x1_eq _ _ _ _ _ _ rfl
  have e9 : indicesToCodesShape cfg.dyn_fsq_levels (B :: fl * 80 :: []) =
      some (B :: fl * 80 :: cfg.dyn_fsq_levels.length :: []) := rfl
  have e10 : reshapeTo (B :: fl * 80 :: cfg.dyn_fsq_levels.length :: [])
      ((-1) :: ((8 * 10 : ℕ) : ℤ) :: [(cfg.dyn_fsq_levels.length : ℤ)]) =
      some ((B * fl) :: 8 * 10 :: cfg.dyn_fsq_levels.length :: []) := by
    have base := reshapeTo_neg1_eq (B :: fl * 80 :: cfg.dyn_fsq_levels.length :: [])
      [] ((8 * 10) :: cfg.dyn_fsq_levels.length :: []) (B * fl)
      (by simp only [List.prod_cons, List.prod_nil]; omega)
      (by simp only [List.prod_cons, List.prod_nil]; ring)
    simpa using base
  have e11 : linearLast cfg.dyn_fsq_levels.length
      (cfg.latent_channels * cfg.patch_size * cfg.patch_size)
      ((B * fl) :: 8 * 10 :: cfg.dyn_fsq_levels.length :: []) =
      some ((B * fl) :: 8 * 10 ::
        (cfg.latent_channels * cfg.patch_size * cfg.patch_size) :: []) :=
    linearLast3 _ _ _ _ _ rfl
  have hgetd : ((B * cfg.context_length) :: cfg.latent_channels :: 32 :: 40 :: []).getD
      (((B * cfg.context_length) :: cfg.latent_channels :: 32 :: 40 :: []).length - 2) 0 = 32 := rfl
  have hgetl : ((B * cfg.context_length) :: cfg.latent_channels :: 32 :: 40 :: []).getLastD 0 =
      40 := rfl
  have e12 : reshapeTo ((B * fl) :: 8 * 10 ::
      (cfg.latent_channels * cfg.patch_size * cfg.patch_size) :: [])
      (((B * fl : ℕ) : ℤ) :: ((32 / cfg.patch_size : ℕ) : ℤ) :: ((40 / cfg.patch_size : ℕ) : ℤ) ::
        (cfg.patch_size : ℤ) :: (cfg.patch_size : ℤ) :: [(cfg.latent_channels : ℤ)]) =
      some ((B * fl) :: 32 / cfg.patch_size :: 40 / cfg.patch_size ::
        cfg.patch_size :: cfg.patch_size :: cfg.latent_channels :: []) := by
    have base := reshapeTo_cast_eq ((B * fl) :: 8 * 10 ::
        (cfg.latent_channels * cfg.patch_size * cfg.patch_size) :: [])
      ((B * fl) :: 32 / cfg.patch_size :: 40 / cfg.patch_size ::
        cfg.patch_size :: cfg.patch_size :: cfg.latent_channels :: [])
      (by rw [hp4]; simp only [List.prod_cons, List.prod_nil,
        show (32 : ℕ) / 4 = 8 from rfl, show (40 : ℕ) / 4 = 10 from rfl]; ring)
    simpa using base
  have e13 : einsum_nhwpqc_nchpwq ((B * fl) :: 32 / cfg.patch_size :: 40 / cfg.patch_size ::
      cfg.patch_size :: cfg.patch_size :: cfg.latent_channels :: []) =
      some ((B * fl) :: cfg.latent_channels :: 32 / cfg.patch_size :: cfg.patch_size ::
        40 / cfg.patch_size :: cfg.patch_size :: []) := rfl
  have e14 : reshapeTo ((B * fl) :: cfg.latent_channels :: 32 / cfg.patch_size ::
      cfg.patch_size :: 40 / cfg.patch_size :: cfg.patch_size :: [])
      (((B * fl : ℕ) : ℤ) :: (cfg.latent_channels : ℤ) :: ((32 : ℕ) : ℤ) :: [((40 : ℕ) : ℤ)]) =
      some ((B * fl) :: cfg.latent_channels :: 32 :: 40 :: []) := by
    have base := reshapeTo_cast_eq ((B * fl) :: cfg.latent_channels :: 32 / cfg.patch_size ::
        cfg.patch_size :: 40 / cfg.patch_size :: cfg.patch_size :: [])
      ((B * fl) :: cfg.latent_channels :: 32 :: 40 :: [])
      (by rw [hp4]; simp only [List.prod_cons, List.prod_nil,
        show (32 : ℕ) / 4 = 8 from rfl, show (40 : ℕ) / 4 = 10 from rfl]; ring)
    simpa using base
  have e15 : decoderShape cfg nets ((B * cfg.context_length) :: cfg.latent_channels :: 32 :: 40 :: []) =
      some (((B * cfg.context_length) :: cfg.out_channels :: nets.decH 32 :: nets.decW 40 :: []),
            (nets.decFeats 32 40).map
              (fun f => (B * cfg.context_length) :: f.1 :: f.2.1 :: f.2.2 :: [])) :=
    decoderShape_eq cfg nets _ _ _ _ rfl
  have hlast3c : lastDims 3 ((B * cfg.context_length) :: cfg.out_channels ::
      nets.decH 32 :: nets.decW 40 :: []) =
      cfg.out_channels :: nets.decH 32 :: nets.decW 40 :: [] := rfl
  have e19 : reshapeTo ((B * cfg.context_length) :: cfg.out_channels ::
      nets.decH 32 :: nets.decW 40 :: [])
      ((B : ℤ) :: (cfg.context_length : ℤ) ::
        (cfg.out_channels :: nets.decH 32 :: nets.decW 40 :: []).map (fun (n : ℕ) => (n : ℤ))) =
      some (B :: cfg.context_length :: cfg.out_channels ::
        nets.decH 32 :: nets.decW 40 :: []) := by
    have base := reshapeTo_cast_eq ((B * cfg.context_length) :: cfg.out_channels ::
        nets.decH 32 :: nets.decW 40 :: [])
      (B :: cfg.context_length :: cfg.out_channels :: nets.decH 32 :: nets.decW 40 :: [])
      (by simp only [List.prod_cons, List.prod_nil]; ring)
    simpa using base
  have hlast3d : lastDims 3 ((B * fl) :: cfg.out_channels ::
      nets.condDecH 32 :: nets.condDecW 40 :: []) =
      cfg.out_channels :: nets.condDecH 32 :: nets.condDecW 40 :: [] := rfl
  have e20 : reshapeTo ((B * fl) :: cfg.out_channels ::
      nets.condDecH 32 :: nets.condDecW 40 :: [])
      ((B : ℤ) :: ((fl : ℕ) : ℤ) ::
        (cfg.out_channels :: nets.condDecH 32 :: nets.condDecW 40 :: []).map
          (fun (n : ℕ) => (n : ℤ))) =
      some (B :: fl :: cfg.out_channels :: nets.condDecH 32 :: nets.condDecW 40 :: []) := by
    have base := reshapeTo_cast_eq ((B * fl) :: cfg.out_channels ::
        nets.condDecH 32 :: nets.condDecW 40 :: [])
      (B :: fl :: cfg.out_channels :: nets.condDecH 32 :: nets.condDecW 40 :: [])
      (by simp only [List.prod_cons, List.prod_nil]; ring)
    simpa using base
  have e21 : catDim1 (B :: cfg.context_length :: cfg.out_channels ::
      nets.decH 32 :: nets.decW 40 :: [])
      (B :: fl :: cfg.out_channels :: nets.condDecH 32 :: nets.condDecW 40 :: []) =
      some (B :: (cfg.context_length + fl) :: cfg.out_channels ::
        nets.decH 32 :: nets.decW 40 :: []) :=
    catDim1_eq _ _ _ _ _ (by rw [hmH, hmW])
  have hbody : detokenize_body cfg nets (B :: cfg.context_length :: 1280 :: [])
      (B :: fl :: 80 :: []) cfg.context_length =
      some (B :: (cfg.context_length + fl) :: cfg.out_channels ::
        nets.decH 32 :: nets.decW 40 :: []) := by
    by_cases hcase : 1 < cfg.context_length
    · have eB : pyFloorDiv (B * fl) fl = some B := by
        simp only [pyFloorDiv]
        rw [if_neg (by omega)]
        rw [Nat.mul_div_left B hfl]
      have e17 : ((nets.decFeats 32 40).map
          (fun f => (B * cfg.context_length) :: f.1 :: f.2.1 :: f.2.2 :: [])).mapM
          (feat_broadcast_ctx cfg.context_length fl B) =
          some (((nets.decFeats 32 40).map
            (fun f => (B * cfg.context_length) :: f.1 :: f.2.1 :: f.2.2 :: [])).map
            (fun f4 => (B * fl) :: cfg.context_length :: f4.tail)) := by
        apply mapM_eq_map_of
        intro f4 hf4
        obtain ⟨tr, htr, rfl⟩ := List.mem_map.mp hf4
        obtain ⟨hc1, hc2, hc3⟩ := hdfeats tr htr
        have step := feat_broadcast_ctx_eq cfg.context_length fl B
          (B * cfg.context_length) tr.1 tr.2.1 tr.2.2 rfl
          (Nat.mul_pos hcl (Nat.mul_pos hc1 (Nat.mul_pos hc2 (Nat.mul_pos hc3 Nat.one_pos))))
        simpa using step
      have e18 : condDecoderShape cfg nets ((B * fl) :: cfg.latent_channels :: 32 :: 40 :: [])
          (((nets.decFeats 32 40).map
            (fun f => (B * cfg.context_length) :: f.1 :: f.2.1 :: f.2.2 :: [])).map
            (fun f4 => (B * fl) :: cfg.context_length :: f4.tail)) =
          some ((B * fl) :: cfg.out_channels :: nets.condDecH 32 :: nets.condDecW 40 :: []) := by
        have hall : ((((nets.decFeats 32 40).map
            (fun f => (B * cfg.context_length) :: f.1 :: f.2.1 :: f.2.2 :: [])).map
            (fun f4 => (B * fl) :: cfg.context_length :: f4.tail)).all
            (fun f => f.headD 0 = B * fl)) = true := by
          simp only [List.map_map]
          rw [List.all_eq_true]
          intro f hf
          obtain ⟨tr, _, rfl⟩ := List.mem_map.mp hf
          simp
        exact condDecoderShape_eq cfg nets _ _ _ _ _ rfl hall
      simp only [detokenize_body, e1, obind_some, e2, obind_some, e3, obind_some,
        e4, obind_some, e5, obind_some, e6, obind_some, e7, obind_some, e8, obind_some,
        e9, obind_some, e10, obind_some, e11, obind_some,
        List.headD_cons, hgetd, hgetl,
        e12, obind_some, e13, obind_some, e14, obind_some, e15, obind_some,
        if_pos hcase, eB, obind_some, e17, obind_some, e18, obind_some,
        hlast3c, hlast3d, e19, obind_some, e20, obind_some, e21]
    · have hctx1 : cfg.context_length = 1 := by omega
      have e17 : ((nets.decFeats 32 40).map
          (fun f => (B * cfg.context_length) :: f.1 :: f.2.1 :: f.2.2 :: [])).mapM
          (feat_broadcast_plain fl) =
          some (((nets.decFeats 32 40).map
            (fun f => (B * cfg.context_length) :: f.1 :: f.2.1 :: f.2.2 :: [])).map
            (fun f4 => (B * cfg.context_length * fl) :: f4.tail)) := by
        apply mapM_eq_map_of
        intro f4 hf4
        obtain ⟨tr, htr, rfl⟩ := List.mem_map.mp hf4
        obtain ⟨hc1, hc2, hc3⟩ := hdfeats tr htr
        have step := feat_broadcast_plain_eq fl
          (B * cfg.context_length) tr.1 tr.2.1 tr.2.2
          (Nat.mul_pos hc1 (Nat.mul_pos hc2 (Nat.mul_pos hc3 Nat.one_pos)))
        simpa using step
      have e18 : condDecoderShape cfg nets ((B * fl) :: cfg.latent_channels :: 32 :: 40 :: [])
          (((nets.decFeats 32 40).map
            (fun f => (B * cfg.context_length) :: f.1 :: f.2.1 :: f.2.2 :: [])).map
            (fun f4 => (B * cfg.context_length * fl) :: f4.tail)) =
          some ((B * fl) :: cfg.out_channels :: nets.condDecH 32 :: nets.condDecW 40 :: []) := by
        have hall : ((((nets.decFeats 32 40).map
            (fun f => (B * cfg.context_length) :: f.1 :: f.2.1 :: f.2.2 :: [])).map
            (fun f4 => (B * cfg.context_length * fl) :: f4.tail)).all
            (fun f => f.headD 0 = B * fl)) = true := by
          simp only [List.map_map]
          rw [List.all_eq_true]
          intro f hf
          obtain ⟨tr, _, rfl⟩ := List.mem_map.mp hf
          simp [hctx1]
        exact condDecoderShape_eq cfg nets _ _ _ _ _ rfl hall
      simp only [detokenize_body, e1, obind_some, e2, obind_some, e3, obind_some,
        e4, obind_some, e5, obind_some, e6, obind_some, e7, obind_some, e8, obind_some,
        e9, obind_some, e10, obind_some, e11, obind_some,
        List.headD_cons, hgetd, hgetl,
        e12, obind_some, e13, obind_some, e14, obind_some, e15, obind_some,
        if_neg hcase, obind_some, e17, obind_some, e18, obind_some,
        hlast3c, hlast3d, e19, obind_some, e20, obind_some, e21]
  unfold CompressiveVQModelFSQ.detokenize
  rw [if_pos rfl, hbody]
/-- Witness for C2: the amended theorem instantiated at B=2, T=3, C=3, H=256,
W=320 with the concrete sample networks; tokenize succeeds with index shapes
[2, 1, 1280] and [2, 2, 80]. -/
theorem tokenize_shapes_witness :
    CompressiveVQModelFSQ.tokenize sampleCfg sampleNets (2 :: 3 :: 3 :: 256 :: 320 :: [])
      sampleCfg.context_length =
      .ok ((2 :: 1 :: 1280 :: []), (2 :: 2 :: 80 :: [])) := by
  have h := tokenize_shapes sampleCfg sampleNets 2 3 3 256 320
    (by decide) (by decide) (by decide) (by decide) (by decide) (by decide) (by decide)
    (by decide) (by decide) (by decide) (by decide)
  exact h

/-- C2 counterexample: at T = context_length (allowed by the claim, which only
requires T >= context_length) tokenize raises a runtime error instead of
returning index tensors: the dynamics path reshapes a tensor with 0 frames
using an inferred -1 dimension, which torch rejects. -/
theorem tokenize_T_eq_context_crash :
    CompressiveVQModelFSQ.tokenize sampleCfg sampleNets (1 :: 1 :: 3 :: 256 :: 320 :: []) 1 =
      .error .runtimeFail := rfl

/-- Witness for C3: the amended theorem instantiated at B=2, context_length=1,
future_length=2 with the concrete sample networks; detokenize succeeds with
output shape [2, 3, 3, 256, 320]. -/
theorem detokenize_shapes_witness :
    CompressiveVQModelFSQ.detokenize sampleCfg sampleNets (2 :: 1 :: 1280 :: [])
      (2 :: 2 :: 80 :: []) sampleCfg.context_length =
      .ok (2 :: 3 :: 3 :: 256 :: 320 :: []) := by
  have h := detokenize_shapes sampleCfg sampleNets 2 2
    (by decide) (by decide) (by decide) (by decide) (by decide) (by decide)
    (by decide) (by decide)
  exact h

/-- C3 counterexample: indices_c of shape [1, 1, 1] matches the claim's
[B, context_length, -] pattern, yet detokenize raises a runtime error: the
hard-coded reshape to (B*context_length, 32, 40, -1) requires the flattened
context code count to be divisible by 1280. -/
theorem detokenize_bad_lastdim_crash :
    CompressiveVQModelFSQ.detokenize sampleCfg sampleNets (1 :: 1 :: 1 :: [])
      (1 :: 1 :: 80 :: []) 1 = .error .runtimeFail := rfl

end VidWM
